import Mathlib

/-!
Verification development for the Nexus central scheduler
(src/nexus/scheduler/scheduler.cpp).  The definitions below are a shallow
embedding of the scheduler's data model and operations; doc comments cite
the line numbers of scheduler.cpp that each definition translates.
Quantities that are `float`/`double` in the C++ source are modelled as
exact rationals; external collaborators whose code is not part of the
scheduler source (ModelDatabase, BackendDelegate internals such as
PrepareLoadModel) are modelled as function parameters.
-/

section RatKernelEval

/-! Batteries marks the rational arithmetic operations irreducible, which
blocks `decide`-style evaluation of the concrete scheduler runs below;
restore semireducibility (an elaboration-only setting with no effect on
the produced proofs). -/

set_option allowUnsafeReducibility true

attribute [semireducible] Rat.add Rat.sub Rat.mul Rat.inv

end RatKernelEval

namespace Nexus

/-! ## Generic association-list helpers

The C++ scheduler stores its registries in `std::unordered_map`; we model a
map snapshot as a list of key-value pairs in iteration order.  `lookupA`
finds the first binding of a key, `emplaceA` mirrors `unordered_map::emplace`
(a no-op when the key is already bound). -/

def lookupA {α β : Type} [DecidableEq α] : List (α × β) → α → Option β
  | [], _ => none
  | (k, v) :: rest, a => if a = k then some v else lookupA rest a

def emplaceA {α β : Type} [DecidableEq α] (l : List (α × β)) (k : α) (v : β) :
    List (α × β) :=
  match lookupA l k with
  | some _ => l
  | none => l ++ [(k, v)]

/-- std::max on the float/double quantities of the scheduler (lines 748,
750, 898), modelled on ℚ; kept as an executable conditional. -/
def qmax (a b : ℚ) : ℚ := if a ≤ b then b else a

theorem qmax_eq_max (a b : ℚ) : qmax a b = max a b := by
  simp [qmax, max_def]

/-! ## Control status codes (spec section 6; used throughout scheduler.cpp) -/

inductive CtrlStatus
  | CTRL_OK
  | MODEL_NOT_FOUND
  | CTRL_SERVER_NOT_REGISTERED
  | NOT_ENOUGH_BACKENDS
  | CTRL_FRONTEND_NODE_ID_CONFLICT
  | CTRL_BACKEND_NODE_ID_CONFLICT
deriving DecidableEq, Repr

/-! ## History-length constants (scheduler.cpp lines 26-43) -/

/-- Lines 33-34: `min_history_len_ = (epoch_interval_sec_ + beacon_interval_sec_ - 1) / beacon_interval_sec_` (integer division). -/
def minHistoryLen (epoch beacon : Nat) : Nat := (epoch + beacon - 1) / beacon

/-- Line 35: `history_len_ = min_history_len_ * 2`. -/
def historyLen (epoch beacon : Nat) : Nat := minHistoryLen epoch beacon * 2

theorem minHistoryLen_eq_ceil (epoch beacon : Nat) (hb : 0 < beacon) :
    minHistoryLen epoch beacon = Nat.ceil ((epoch : ℚ) / (beacon : ℚ)) := by
  have hq : (0 : ℚ) < (beacon : ℚ) := by exact_mod_cast hb
  have hdef : minHistoryLen epoch beacon = epoch ⌈/⌉ beacon :=
    (Nat.ceilDiv_eq_add_pred_div epoch beacon).symm
  rw [hdef]
  rcases Nat.eq_zero_or_pos (epoch ⌈/⌉ beacon) with h0 | hpos
  · rw [h0]
    symm
    rw [Nat.ceil_eq_zero]
    have h1 : epoch ≤ beacon • 0 := (ceilDiv_le_iff_le_smul hb).mp (le_of_eq h0)
    have he : epoch = 0 := by simpa using h1
    simp [he]
  · symm
    rw [Nat.ceil_eq_iff (Nat.pos_iff_ne_zero.mp hpos)]
    constructor
    · rw [lt_div_iff hq]
      have hlt : ¬ epoch ≤ beacon * (epoch ⌈/⌉ beacon - 1) := by
        intro hle
        have h2 := (ceilDiv_le_iff_le_smul hb).mpr (by simpa [smul_eq_mul] using hle)
        omega
      push_neg at hlt
      calc ((epoch ⌈/⌉ beacon - 1 : ℕ) : ℚ) * beacon
          = ((beacon * (epoch ⌈/⌉ beacon - 1) : ℕ) : ℚ) := by push_cast; ring
        _ < epoch := by exact_mod_cast hlt
    · rw [div_le_iff hq]
      have h3 : epoch ≤ beacon • (epoch ⌈/⌉ beacon) := le_smul_ceilDiv hb
      have h4 : epoch ≤ beacon * (epoch ⌈/⌉ beacon) := by simpa [smul_eq_mul] using h3
      calc ((epoch : ℕ) : ℚ) ≤ ((beacon * (epoch ⌈/⌉ beacon) : ℕ) : ℚ) := by
            exact_mod_cast h4
        _ = ((epoch ⌈/⌉ beacon : ℕ) : ℚ) * beacon := by push_cast; ring

/-! ## Claim C9: the control-loop clock (scheduler.cpp lines 61-86) -/

inductive ClockKind
  | systemWall
  | steadyMonotonic
deriving DecidableEq, Repr

/-- Line 69 of Scheduler::Run reads `std::chrono::system_clock::now()` (the
wall clock) as the base time point for `sleep_until`; no
`std::chrono::steady_clock` appears anywhere in the function. -/
def runSleepClock : ClockKind := ClockKind.systemWall

/-- State of the Scheduler::Run ticker loop: the logical second counters
`elapse_sec`, `last_beacon`, `last_epoch` (lines 65-67). -/
structure RunTick where
  elapse_sec : Nat
  last_beacon : Nat
  last_epoch : Nat
deriving DecidableEq, Repr

/-- Lines 68-85: one iteration of the Run loop.  Beacon fires when
`elapse_sec > 0 && elapse_sec % beacon == 0` (line 70), epoch likewise
(line 74); the next wake-up second is
`min(last_beacon + beacon, last_epoch + epoch)` (lines 80-81) and becomes
the new `elapse_sec` (line 84). -/
def runStep (beacon epoch : Nat) (s : RunTick) : RunTick :=
  let lb := if 0 < s.elapse_sec ∧ s.elapse_sec % beacon = 0 then s.elapse_sec
            else s.last_beacon
  let le := if 0 < s.elapse_sec ∧ s.elapse_sec % epoch = 0 then s.elapse_sec
            else s.last_epoch
  ⟨min (lb + beacon) (le + epoch), lb, le⟩

/-- Invariant of the Run loop counters between iterations: `last_beacon`
and `last_epoch` hold fired tick times (multiples of their intervals) and
the current second does not overshoot either next deadline.  It holds at
the initial state `⟨0, 0, 0⟩` (lines 65-67). -/
def RunTickInv (beacon epoch : Nat) (s : RunTick) : Prop :=
  s.last_beacon % beacon = 0 ∧ s.last_epoch % epoch = 0 ∧
  s.elapse_sec ≤ s.last_beacon + beacon ∧ s.elapse_sec ≤ s.last_epoch + epoch

/-! ## Claim C10: Register replies (scheduler.cpp lines 303-331) -/

/-- Scheduler configuration fields initialised by the constructor,
lines 26-35: the liveness/epoch intervals come from the `--beacon` and
`--epoch` flags. -/
structure SchedulerCfg where
  beacon_interval_sec_ : Nat
  epoch_interval_sec_ : Nat
  min_history_len_ : Nat
  history_len_ : Nat
deriving DecidableEq, Repr

/-- Lines 26-35: `beacon_interval_sec_(FLAGS_beacon)`,
`epoch_interval_sec_(FLAGS_epoch)` and the derived history lengths. -/
def mkScheduler (FLAGS_beacon FLAGS_epoch : Nat) : SchedulerCfg :=
  { beacon_interval_sec_ := FLAGS_beacon
    epoch_interval_sec_ := FLAGS_epoch
    min_history_len_ := minHistoryLen FLAGS_epoch FLAGS_beacon
    history_len_ := historyLen FLAGS_epoch FLAGS_beacon }

structure RegisterReply where
  status : CtrlStatus
  beacon_interval_sec : Nat
deriving DecidableEq, Repr

/-- Lines 303-315 (RegisterFrontend): on a duplicate node id the reply is
CTRL_FRONTEND_NODE_ID_CONFLICT (the beacon field keeps its protobuf
default 0); otherwise CTRL_OK with
`reply->set_beacon_interval_sec(BEACON_INTERVAL_SEC)` - the compile-time
constant from common/config.h (outside src/, hence a parameter here),
not the flag-derived `beacon_interval_sec_`. -/
def registerFrontendReply (BEACON_INTERVAL_SEC : Nat) (frontendIds : List Nat)
    (node_id : Nat) : RegisterReply :=
  if node_id ∈ frontendIds then
    { status := CtrlStatus.CTRL_FRONTEND_NODE_ID_CONFLICT, beacon_interval_sec := 0 }
  else
    { status := CtrlStatus.CTRL_OK, beacon_interval_sec := BEACON_INTERVAL_SEC }

/-- Lines 317-331 (RegisterBackend): same shape as registerFrontendReply,
with CTRL_BACKEND_NODE_ID_CONFLICT on duplicates and
`set_beacon_interval_sec(BEACON_INTERVAL_SEC)` on success (line 327). -/
def registerBackendReply (BEACON_INTERVAL_SEC : Nat) (backendIds : List Nat)
    (node_id : Nat) : RegisterReply :=
  if node_id ∈ backendIds then
    { status := CtrlStatus.CTRL_BACKEND_NODE_ID_CONFLICT, beacon_interval_sec := 0 }
  else
    { status := CtrlStatus.CTRL_OK, beacon_interval_sec := BEACON_INTERVAL_SEC }

/-- Lines 97-106 (Scheduler::Register): both delegate constructors receive
`beacon_interval_sec_` - the flag value - which the delegates use for their
IsAlive liveness window. -/
def delegateBeaconInterval (cfg : SchedulerCfg) : Nat := cfg.beacon_interval_sec_

/-! ## Claim C5: static-slot recording in RemoveBackend (lines 464-481) -/

/-- Lines 476-481: after a dead backend's model table has been accepted by
an idle backend via Assign, the code records the static slot with
`if (assigned->workload_id()) \x7b assigned_static_workloads_.emplace(...); \x7d`:
a C++ truthiness test, i.e. it records exactly when `workload_id != 0`.
A dynamic backend carries `workload_id == -1`. -/
def recordReassignedSlot (workloadId : Int) (nodeId : Nat)
    (assigned_static_workloads : List (Int × Nat)) : List (Int × Nat) :=
  if workloadId ≠ 0 then emplaceA assigned_static_workloads workloadId nodeId
  else assigned_static_workloads

/-! ## Data model (spec section 3; scheduler.cpp usage sites) -/

/-- Model identifier (framework, model name, version): the image of
`ModelSessionToModelID` (line 127). -/
structure ModelID where
  framework : String
  model_name : String
  version : Nat
deriving DecidableEq, Repr, Inhabited

/-- ModelSession proto fields used by the scheduler (lines 125-139).
`ModelSessionToString` is injective on these fields, so the session value
itself serves as the routing key of the C++ string id. -/
structure ModelSession where
  framework : String
  model_name : String
  version : Nat
  latency_sla : Nat
  image_height : Nat
  image_width : Nat
deriving DecidableEq, Repr, Inhabited

def ModelSessionToModelID (m : ModelSession) : ModelID :=
  ⟨m.framework, m.model_name, m.version⟩

/-- ParseModelID (line 177) overwrites the framework/name/version of
`share_model_sess` while its latency sla and image dims were copied from
the incoming session (lines 171-174). -/
def modelIDToSession (id : ModelID) (latency_sla image_height image_width : Nat) :
    ModelSession :=
  ⟨id.framework, id.model_name, id.version, latency_sla, image_height, image_width⟩

/-- InstanceInfo as consumed by scheduler.cpp: only the throughput field is
read (lines 231, 242, 886, 891); the delegate-internal plan fields (batch,
duty cycle, memory) live outside src/ and are elided. -/
structure InstanceInfo where
  throughput : ℚ
deriving DecidableEq, Repr, Inhabited

/-- BackendDelegate state visible to scheduler.cpp.  `alive` abstracts
IsAlive() and `models` the delegate's model table (both maintained in
backend_delegate.cpp, outside src/); `workload_id` is -1 for dynamic
backends. -/
structure BackendDelegate where
  node_id : Nat
  alive : Bool
  workload_id : Int
  models : List ModelSession
deriving DecidableEq, Repr, Inhabited

/-- Modelled from the spec: section 4.B defines
`IsIdle() ⇔ model_table.empty() ∧ workload_id == −1` (backend_delegate.cpp
is outside src/). -/
def BackendDelegate.IsIdle (b : BackendDelegate) : Bool :=
  b.models.isEmpty && b.workload_id == -1

/-- SessionInfo (declared in scheduler.h, outside src/; fields are exactly
those scheduler.cpp reads and writes, cf. spec section 3).  Prefix-shared
sessions share one SessionInfo: the scheduler state below stores SessionInfo
records in an arena and maps every session key to an arena index. -/
structure SessionInfo where
  model_sessions : List ModelSession
  backend_throughputs : List (Nat × ℚ)
  has_static_workload : Bool
  unassigned_workload : ℚ
  rps_history : List ℚ
deriving DecidableEq, Repr

instance : Inhabited SessionInfo :=
  ⟨⟨[], [], false, 0, []⟩⟩

/-- Modelled from the spec: section 3 defines
`total_throughput = Σ backend_throughputs` (the accessor lives in
scheduler.h, outside src/). -/
def SessionInfo.totalThroughput (s : SessionInfo) : ℚ :=
  (s.backend_throughputs.map Prod.snd).sum

/-- Scheduler registries protected by the scheduler mutex.  `sessions` is
the arena of SessionInfo records; `session_table` maps each session key to
its arena index (mirroring the shared `SessionInfoPtr`s of the C++ table);
`frontends` maps a frontend id to its subscribed sessions;
`session_subscribers` mirrors `session_subscribers_`. -/
structure SchedState where
  backends : List BackendDelegate
  sessions : List SessionInfo
  session_table : List (ModelSession × Nat)
  frontends : List (Nat × List ModelSession)
  session_subscribers : List (ModelSession × List Nat)
deriving DecidableEq, Repr

/-- Instructions the scheduler issues to backend delegates (spec section
4.B); the traces of these are what claims C1 and C4 constrain. -/
inductive Instr
  | loadModel (backend : Nat) (sess : ModelSession)
  | loadPrefixModel (backend : Nat) (tailSess headSess : ModelSession)
  | unloadModel (backend : Nat) (sess : ModelSession)
deriving DecidableEq, Repr

/-- Insert into a set represented as a list (std::set / unordered_set
insert, and unordered_map emplace of a fresh key). -/
def insertNew {α : Type} [DecidableEq α] (x : α) (l : List α) : List α :=
  if x ∈ l then l else l ++ [x]

def applyInstr (i : Instr) (bs : List BackendDelegate) : List BackendDelegate :=
  match i with
  | .loadModel n m =>
      bs.map fun b => if b.node_id = n then { b with models := insertNew m b.models } else b
  | .loadPrefixModel n t _ =>
      bs.map fun b => if b.node_id = n then { b with models := insertNew t b.models } else b
  | .unloadModel n m =>
      bs.map fun b => if b.node_id = n then { b with models := b.models.filter (· != m) } else b

def applyInstrs (is : List Instr) (bs : List BackendDelegate) : List BackendDelegate :=
  is.foldl (fun acc i => applyInstr i acc) bs

/-- Model metadata record as read by LoadModel (lines 126-138): the
resizable flag and the default image size. -/
structure ModelInfo where
  resizable : Bool
  image_height : Nat
  image_width : Nat
deriving DecidableEq, Repr, Inhabited

/-- External collaborators of the scheduler: the model database (spec
section 4.A) and the per-backend `PrepareLoadModel` solver (spec section
4.B), both outside src/, plus the `--prefix_batch` flag. -/
structure Env where
  getModelInfo : ModelID → Option ModelInfo
  getPrefixShareModels : ModelID → List ModelID
  prepare : Nat → ModelSession → ℚ → Option (InstanceInfo × ℚ)
  enable_prefix_batch : Bool

/-! ## FindBestBackend (scheduler.cpp lines 603-651) -/

/-- Candidate tuple: the C++ `ModelLoad = tuple<BackendDelegatePtr,
InstanceInfo, float>` keyed here by the backend's node id. -/
abbrev MLoad := Nat × InstanceInfo × ℚ

def mtp (c : MLoad) : ℚ := c.2.1.throughput

def mocc (c : MLoad) : ℚ := c.2.2

/-- Lines 612-620: a backend is considered unless it is in `skips`, is not
alive, has a static workload (`workload_id >= 0`), or - when the request
rate is zero - is not idle. -/
def eligibleBackend (rate : ℚ) (skips : List Nat) (b : BackendDelegate) : Bool :=
  !(skips.contains b.node_id) && b.alive && decide (b.workload_id < 0) &&
    (!(decide (rate = 0)) || b.IsIdle)

/-- Loop body of lines 610-636: on an eligible backend whose
PrepareLoadModel succeeds, update the max-throughput and max-occupancy
accumulators (strict `>` comparisons, lines 628-635). -/
def fbStep (prepare : Nat → ModelSession → ℚ → Option (InstanceInfo × ℚ))
    (model_sess : ModelSession) (rate : ℚ) (skips : List Nat)
    (acc : Option MLoad × Option MLoad) (b : BackendDelegate) :
    Option MLoad × Option MLoad :=
  if eligibleBackend rate skips b then
    match prepare b.node_id model_sess rate with
    | none => acc
    | some pr =>
      let c : MLoad := (b.node_id, pr.1, pr.2)
      let t := match acc.1 with
        | none => some c
        | some c0 => if mtp c > mtp c0 then some c else some c0
      let o := match acc.2 with
        | none => some c
        | some c0 => if mocc c > mocc c0 then some c else some c0
      (t, o)
  else acc

/-- Lines 603-651: FindBestBackend.  After the scan, rate 0 returns the
max-throughput candidate (lines 637-640); otherwise if even the best
throughput is below the rate, the max-throughput candidate (lines
641-645), else the max-occupancy candidate (lines 646-650).  A null
best_backend is `none`. -/
def FindBestBackend (prepare : Nat → ModelSession → ℚ → Option (InstanceInfo × ℚ))
    (model_sess : ModelSession) (rate : ℚ) (skips : List Nat)
    (backends : List BackendDelegate) : Option (Nat × InstanceInfo) :=
  let acc := backends.foldl (fbStep prepare model_sess rate skips) (none, none)
  if rate = 0 then acc.1.map fun c => (c.1, c.2.1)
  else match acc.1 with
    | none => none
    | some t =>
      if mtp t < rate then some (t.1, t.2.1)
      else acc.2.map fun c => (c.1, c.2.1)

/-- Specification view of the scan of lines 610-636: the candidates are
exactly the eligible backends whose PrepareLoadModel succeeds, in backend
iteration order. -/
def fbCandidates (prepare : Nat → ModelSession → ℚ → Option (InstanceInfo × ℚ))
    (model_sess : ModelSession) (rate : ℚ) (skips : List Nat)
    (backends : List BackendDelegate) : List MLoad :=
  backends.filterMap fun b =>
    if eligibleBackend rate skips b then
      (prepare b.node_id model_sess rate).map fun pr => (b.node_id, pr.1, pr.2)
    else none

/-- First-maximum selection underlying both accumulators of the scan. -/
def selMax (score : MLoad → ℚ) (acc : Option MLoad) (c : MLoad) : Option MLoad :=
  match acc with
  | none => some c
  | some c0 => if score c > score c0 then some c else some c0

/-! ## The LoadModel handler (scheduler.cpp lines 122-253) -/

/-- Update the arena record at `idx` (mutation through a shared
`SessionInfoPtr` in C++). -/
def updateSessions (sessions : List SessionInfo) (idx : Nat)
    (f : SessionInfo → SessionInfo) : List SessionInfo :=
  match sessions[idx]? with
  | none => sessions
  | some s => sessions.set idx (f s)

/-- GetModelRoute (lines 593-601): the route for a session lists each
serving backend with its throughput, read from backend_throughputs. -/
def getModelRoute (st : SchedState) (k : ModelSession) : List (Nat × ℚ) :=
  match lookupA st.session_table k with
  | none => []
  | some idx => ((st.sessions[idx]?).map SessionInfo.backend_throughputs).getD []

/-- FrontendDelegate::SubscribeModel (line 153 call site): add the session
to the frontend's subscription set. -/
def subscribeModel (fronts : List (Nat × List ModelSession)) (fid : Nat)
    (k : ModelSession) : List (Nat × List ModelSession) :=
  fronts.map fun p => if p.1 = fid then (p.1, insertNew k p.2) else p

/-- Lines 154-158: upsert of the frontend into `session_subscribers_` -
emplace a fresh singleton when the key is absent, otherwise insert into
the existing set. -/
def upsertSubscriber (subs : List (ModelSession × List Nat)) (k : ModelSession)
    (fid : Nat) : List (ModelSession × List Nat) :=
  match lookupA subs k with
  | none => subs ++ [(k, [fid])]
  | some _ => subs.map fun p => if p.1 = k then (p.1, insertNew fid p.2) else p

/-- Lines 176-185: scan the prefix-share model ids in database order for
one whose session (with the incoming session's latency sla and image dims,
lines 170-174) is already in the session table; break at the first hit. -/
def findShareSession (st : SchedState) (m : ModelSession) :
    List ModelID → Option (ModelSession × Nat)
  | [] => none
  | id :: rest =>
    let s := modelIDToSession id m.latency_sla m.image_height m.image_width
    match lookupA st.session_table s with
    | some idx => some (s, idx)
    | none => findShareSession st m rest

/-- Lines 132-138: fill the default image size for a resizable model when
the request left it zero. -/
def defaultFill (info : ModelInfo) (m : ModelSession) : ModelSession :=
  if info.resizable && m.image_height == 0 then
    { m with image_height := info.image_height, image_width := info.image_width }
  else m

/-- Outcome of the backend-allocation code of lines 208-233.  `fuelOut`
marks exhaustion of the fuel bounding the C++ `while (workload > 0)` loop
(which can iterate unboundedly if a found instance has zero throughput). -/
inductive AllocOutcome
  | success (assign_backends : List (Nat × InstanceInfo))
  | noBackend
  | fuelOut
deriving DecidableEq, Repr

/-- Lines 220-233: repeatedly FindBestBackend until the remaining workload
is covered, accumulating the found (backend, instance) pairs and inserting
each found backend into `used`. -/
def allocLoop (env : Env) (m : ModelSession) (backends : List BackendDelegate) :
    Nat → ℚ → List Nat → List (Nat × InstanceInfo) → AllocOutcome
  | 0, workload, _, acc => if workload ≤ 0 then .success acc else .fuelOut
  | fuel + 1, workload, used, acc =>
    if workload ≤ 0 then .success acc
    else
      match FindBestBackend env.prepare m workload used backends with
      | none => .noBackend
      | some (bid, inst) =>
          allocLoop env m backends fuel (workload - inst.throughput)
            (insertNew bid used) (acc ++ [(bid, inst)])

/-- Lines 208-233: pick backends for a fresh session - a single best
backend when the estimate is zero (lines 211-219), else the loop. -/
def freshAlloc (env : Env) (m : ModelSession) (workload : ℚ) (fuel : Nat)
    (backends : List BackendDelegate) : AllocOutcome :=
  if workload = 0 then
    match FindBestBackend env.prepare m workload [] backends with
    | none => .noBackend
    | some (bid, inst) => .success [(bid, inst)]
  else allocLoop env m backends fuel workload [] []

/-- LoadModelRequest proto fields read by the handler (lines 125, 140,
143). -/
structure LoadModelRequest where
  node_id : Nat
  model_session : ModelSession
  estimate_workload : ℚ
deriving DecidableEq, Repr

structure LoadModelReply where
  status : CtrlStatus
  model_route : List (Nat × ℚ)
deriving DecidableEq, Repr

/-- Result of the LoadModel handler; `diverged` models the C++ allocation
loop failing to terminate (fuel exhausted), in which case no reply is
produced. -/
inductive LoadModelResult
  | diverged
  | reply (r : LoadModelReply) (st : SchedState) (instrs : List Instr)
deriving DecidableEq, Repr

/-- Lines 122-253: the LoadModel RPC handler.
Order of the source: model-db lookup (MODEL_NOT_FOUND, lines 126-131),
resizable default fill (lines 132-138), frontend lookup
(CTRL_SERVER_NOT_REGISTERED, lines 143-147), duplicate-session path
(lines 148-160), prefix-attach path (lines 162-206), fresh allocation
(lines 208-233) followed by the load/bookkeeping block (lines 235-253).
The fresh SessionInfo uses the default-constructed field values of
scheduler.h (no static workload, zero unassigned workload, empty rps
history). -/
def loadModelHandler (env : Env) (fuel : Nat) (req : LoadModelRequest)
    (st : SchedState) : LoadModelResult :=
  match env.getModelInfo (ModelSessionToModelID req.model_session) with
  | none => .reply ⟨CtrlStatus.MODEL_NOT_FOUND, []⟩ st []
  | some info =>
    let m := defaultFill info req.model_session
    match lookupA st.frontends req.node_id with
    | none => .reply ⟨CtrlStatus.CTRL_SERVER_NOT_REGISTERED, []⟩ st []
    | some _ =>
      match lookupA st.session_table m with
      | some _ =>
        let route := getModelRoute st m
        let st' := { st with
          frontends := subscribeModel st.frontends req.node_id m
          session_subscribers := upsertSubscriber st.session_subscribers m req.node_id }
        .reply ⟨CtrlStatus.CTRL_OK, route⟩ st' []
      | none =>
        match (if env.enable_prefix_batch then
                 findShareSession st m
                   (env.getPrefixShareModels (ModelSessionToModelID m))
               else none) with
        | some (share, idx) =>
          let tps := ((st.sessions[idx]?).map SessionInfo.backend_throughputs).getD []
          let instrs := tps.map fun p => Instr.loadPrefixModel p.1 m share
          let st' := { st with
            backends := applyInstrs instrs st.backends
            sessions := updateSessions st.sessions idx fun s =>
              { s with model_sessions := s.model_sessions ++ [m] }
            session_table := st.session_table ++ [(m, idx)]
            frontends := subscribeModel st.frontends req.node_id m
            session_subscribers := emplaceA st.session_subscribers m [req.node_id] }
          .reply ⟨CtrlStatus.CTRL_OK, getModelRoute st' m⟩ st' instrs
        | none =>
          match freshAlloc env m req.estimate_workload fuel st.backends with
          | .fuelOut => .diverged
          | .noBackend => .reply ⟨CtrlStatus.NOT_ENOUGH_BACKENDS, []⟩ st []
          | .success assigns =>
            let instrs := assigns.map fun p => Instr.loadModel p.1 m
            let newInfo : SessionInfo :=
              { model_sessions := [m]
                backend_throughputs :=
                  assigns.foldl (fun acc p => emplaceA acc p.1 p.2.throughput) []
                has_static_workload := false
                unassigned_workload := 0
                rps_history := [] }
            let st' := { st with
              backends := applyInstrs instrs st.backends
              sessions := st.sessions ++ [newInfo]
              session_table := st.session_table ++ [(m, st.sessions.length)]
              frontends := subscribeModel st.frontends req.node_id m
              session_subscribers := emplaceA st.session_subscribers m [req.node_id] }
            .reply ⟨CtrlStatus.CTRL_OK, getModelRoute st' m⟩ st' instrs

/-! ## AllocateUnassignedWorkloads (scheduler.cpp lines 848-900) -/

def insertSortedBy {α : Type} (le : α → α → Bool) (x : α) : List α → List α
  | [] => [x]
  | y :: ys => if le x y then x :: y :: ys else y :: insertSortedBy le x ys

def sortByKeyDesc {α : Type} (key : α → ℚ) (l : List α) : List α :=
  l.foldr (insertSortedBy fun a b => decide (key b ≤ key a)) []

/-- Lines 852-863: collect the distinct SessionInfo records (arena
indices; the C++ `visited` set deduplicates the shared pointers) with
positive unassigned workload, in table iteration order. -/
def collectUnassigned (st : SchedState) : List Nat :=
  (st.session_table.foldl (fun acc p => if p.2 ∈ acc then acc else acc ++ [p.2]) []).filter
    fun idx => decide (0 < ((st.sessions[idx]?).getD default).unassigned_workload)

/-- Lines 876-897: the per-session assignment loop.  Each iteration finds
a best backend for the group head `model_sessions[0]` with an empty skip
set, loads the head there, loads every sibling as a prefix model of the
head (lines 887-889), and records the backend's throughput.  The loop
stops when the residual rate is covered or no backend is found; fuel
bounds the unbounded C++ loop. -/
def allocSessionLoop (env : Env) (idx : Nat) :
    Nat → SchedState → ℚ → SchedState × List Instr × ℚ
  | 0, st, rate => (st, [], rate)
  | fuel + 1, st, rate =>
    if rate ≤ 0 then (st, [], rate)
    else
      let sess := (st.sessions[idx]?).getD default
      let headSess := sess.model_sessions.headD default
      match FindBestBackend env.prepare headSess rate [] st.backends with
      | none => (st, [], rate)
      | some (bid, inst) =>
        let instrs := Instr.loadModel bid headSess ::
          (sess.model_sessions.drop 1).map fun t => Instr.loadPrefixModel bid t headSess
        let st' := { st with
          backends := applyInstrs instrs st.backends
          sessions := updateSessions st.sessions idx fun s =>
            { s with backend_throughputs := emplaceA s.backend_throughputs bid inst.throughput } }
        let out := allocSessionLoop env idx fuel st' (rate - inst.throughput)
        (out.1, instrs ++ out.2.1, out.2.2)

/-- Lines 871-899: process one unassigned session, then store the residual
back (`unassigned_workload = max(0, request_rate)`, line 898). -/
def allocOneSession (env : Env) (fuel : Nat) (idx : Nat) (st : SchedState) :
    SchedState × List Instr :=
  let rate0 := ((st.sessions[idx]?).getD default).unassigned_workload
  let out := allocSessionLoop env idx fuel st rate0
  ({ out.1 with sessions := updateSessions out.1.sessions idx fun s =>
      { s with unassigned_workload := qmax 0 out.2.2 } }, out.2.1)

/-- Lines 848-900: AllocateUnassignedWorkloads - collect, sort descending
by unassigned workload (std::sort, lines 867-870), process each. -/
def AllocateUnassignedWorkloads (env : Env) (fuel : Nat) (st : SchedState) :
    SchedState × List Instr :=
  let idxs := sortByKeyDesc
    (fun idx => ((st.sessions[idx]?).getD default).unassigned_workload)
    (collectUnassigned st)
  idxs.foldl (fun acc idx =>
    let out := allocOneSession env fuel idx acc.1
    (out.1, acc.2 ++ out.2)) (st, [])

/-! ## RemoveFrontend (lines 548-573) and the shrink unload (lines 773-777) -/

/-- RemoveFromSessionGroup (line 560 call site, common lib): remove the
session with the given id from the group. -/
def removeSessionFromGroup (ms : List ModelSession) (k : ModelSession) :
    List ModelSession :=
  ms.filter (· != k)

/-- Lines 551-567 for one subscribed session: erase the frontend from the
subscriber set; when the set becomes empty and the session has no static
workload, unload the session from every serving backend, remove it from
its session group and erase its table entry (the now-empty subscriber
entry stays, as in the source). -/
def removeFrontendStepOne (fid : Nat) (st : SchedState) (k : ModelSession) :
    SchedState × List Instr :=
  let subs2 := st.session_subscribers.map fun p =>
    if p.1 = k then (p.1, p.2.filter (· != fid)) else p
  if ((lookupA subs2 k).getD []).isEmpty then
    match lookupA st.session_table k with
    | none => ({ st with session_subscribers := subs2 }, [])
    | some idx =>
      let sess := (st.sessions[idx]?).getD default
      if sess.has_static_workload then ({ st with session_subscribers := subs2 }, [])
      else
        let instrs := sess.backend_throughputs.map fun p => Instr.unloadModel p.1 k
        ({ st with
            backends := applyInstrs instrs st.backends
            sessions := updateSessions st.sessions idx fun s =>
              { s with model_sessions := removeSessionFromGroup s.model_sessions k }
            session_table := st.session_table.filter fun p => p.1 != k
            session_subscribers := subs2 }, instrs)
  else ({ st with session_subscribers := subs2 }, [])

/-- Lines 548-573 together with the `frontends_.erase` of the callers
(lines 340, 665): remove the frontend and clean up each of its subscribed
sessions in subscription order. -/
def removeFrontendFn (fid : Nat) (st : SchedState) : SchedState × List Instr :=
  let ks := (lookupA st.frontends fid).getD []
  let st0 := { st with frontends := st.frontends.filter fun p => p.1 != fid }
  ks.foldl (fun acc k =>
    let out := removeFrontendStepOne fid acc.1 k
    (out.1, acc.2 ++ out.2)) (st0, [])

/-- Lines 773-777 of EpochSchedule (shrink branch): unload the session
from one serving backend and drop that backend from backend_throughputs.
The arithmetic that gates this in the source only restricts when it fires,
so it is modelled as a may-fire transition. -/
def shrinkUnloadFn (k : ModelSession) (bid : Nat) (st : SchedState) :
    SchedState × List Instr :=
  match lookupA st.session_table k with
  | none => (st, [])
  | some idx =>
    if ((st.sessions[idx]?).getD default).backend_throughputs.any (fun p => p.1 == bid) then
      ({ st with
          backends := applyInstrs [Instr.unloadModel bid k] st.backends
          sessions := updateSessions st.sessions idx fun s =>
            { s with backend_throughputs := s.backend_throughputs.filter fun p => p.1 != bid } },
        [Instr.unloadModel bid k])
    else (st, [])

/-- RegisterFrontend (lines 303-315): record a fresh frontend. -/
def registerFrontendFn (fid : Nat) (st : SchedState) : SchedState :=
  if (lookupA st.frontends fid).isSome then st
  else { st with frontends := st.frontends ++ [(fid, [])] }

/-- RegisterBackend (lines 317-331) for a dynamic backend (no static
workload configured): record a fresh, alive, idle delegate with
workload_id -1; the subsequent AllocateUnassignedWorkloads call of
AddBackend (line 425) is the separate `allocate` transition. -/
def registerBackendFn (nid : Nat) (st : SchedState) : SchedState :=
  if st.backends.any (fun b => b.node_id == nid) then st
  else { st with backends := st.backends ++ [⟨nid, true, -1, []⟩] }

/-! ## The scheduler transition system and instruction-trace predicates -/

/-- Transitions of the scheduler that create or destroy model instances on
backends: the LoadModel handler, AllocateUnassignedWorkloads (called from
AddBackend, RemoveBackend and EpochSchedule), frontend removal, the epoch
shrink unload, and node registration. -/
inductive Step (env : Env) : SchedState → List Instr → SchedState → List Instr → Prop
  | registerFrontend (fid : Nat) (st : SchedState) (tr : List Instr) :
      Step env st tr (registerFrontendFn fid st) tr
  | registerBackend (nid : Nat) (st : SchedState) (tr : List Instr) :
      Step env st tr (registerBackendFn nid st) tr
  | loadModel (fuel : Nat) (req : LoadModelRequest) (st : SchedState) (tr : List Instr)
      (r : LoadModelReply) (st' : SchedState) (is : List Instr)
      (h : loadModelHandler env fuel req st = LoadModelResult.reply r st' is) :
      Step env st tr st' (tr ++ is)
  | allocate (fuel : Nat) (st : SchedState) (tr : List Instr) :
      Step env st tr (AllocateUnassignedWorkloads env fuel st).1
        (tr ++ (AllocateUnassignedWorkloads env fuel st).2)
  | removeFrontend (fid : Nat) (st : SchedState) (tr : List Instr) :
      Step env st tr (removeFrontendFn fid st).1 (tr ++ (removeFrontendFn fid st).2)
  | shrinkUnload (k : ModelSession) (bid : Nat) (st : SchedState) (tr : List Instr) :
      Step env st tr (shrinkUnloadFn k bid st).1 (tr ++ (shrinkUnloadFn k bid st).2)

/-- Scheduler start state: empty registries (spec section 6: no persisted
state). -/
def initState : SchedState := ⟨[], [], [], [], []⟩

inductive Reach (env : Env) : SchedState → List Instr → Prop
  | init : Reach env initState []
  | step {st tr st' tr'} : Reach env st tr → Step env st tr st' tr' → Reach env st' tr'

def instrUnloads (b : Nat) (m : ModelSession) : Instr → Bool
  | .unloadModel b' m' => b' == b && m' == m
  | _ => false

def instrLoadsModel (b : Nat) (m : ModelSession) : Instr → Bool
  | .loadModel b' m' => b' == b && m' == m
  | _ => false

def instrInstalls (b : Nat) (m : ModelSession) : Instr → Bool
  | .loadModel b' m' => b' == b && m' == m
  | .loadPrefixModel b' t _ => b' == b && t == m
  | .unloadModel _ _ => false

/-- Session m counts as installed on backend b after a trace when some
LoadModel(m) or LoadPrefixModel(m, _) instruction was issued to b and no
later UnloadModel(m) was. -/
def installedStep (b : Nat) (m : ModelSession) (cur : Bool) (i : Instr) : Bool :=
  if instrInstalls b m i then true else if instrUnloads b m i then false else cur

def installedB (tr : List Instr) (b : Nat) (m : ModelSession) : Bool :=
  tr.foldl (installedStep b m) false

/-- Session m counts as head-loaded on backend b when a LoadModel(m) -
specifically, not a LoadPrefixModel - was issued and not yet undone. -/
def loadedHeadStep (b : Nat) (m : ModelSession) (cur : Bool) (i : Instr) : Bool :=
  if instrLoadsModel b m i then true else if instrUnloads b m i then false else cur

def loadedHeadB (tr : List Instr) (b : Nat) (m : ModelSession) : Bool :=
  tr.foldl (loadedHeadStep b m) false

/-- Claim C4 as stated: scanning the trace, every LoadPrefixModel(tail,
head) on a backend must find head loaded by a LoadModel on that backend
with no intervening UnloadModel. -/
def strictPrefixFrom (tr : List Instr) : List Instr → Bool
  | [] => true
  | i :: rest =>
    (match i with
     | Instr.loadPrefixModel b _ hd => loadedHeadB tr b hd
     | _ => true) && strictPrefixFrom (tr ++ [i]) rest

def StrictPrefixPre (tr : List Instr) : Prop := strictPrefixFrom [] tr = true

/-- Amended precondition: the claimed head must be installed on the
backend - by a LoadModel or by an earlier LoadPrefixModel that loaded it
as a tail - with no intervening UnloadModel. -/
def sharedPrefixFrom (tr : List Instr) : List Instr → Bool
  | [] => true
  | i :: rest =>
    (match i with
     | Instr.loadPrefixModel b _ hd => installedB tr b hd
     | _ => true) && sharedPrefixFrom (tr ++ [i]) rest

def SharedPrefixPre (tr : List Instr) : Prop := sharedPrefixFrom [] tr = true

/-! ## BeaconCheck rps aggregation (lines 672-695) and the EpochSchedule
prelude (lines 726-750) -/

/-- Lines 676-687 for one session: `rps` accumulates GetModelRps over the
serving backends (`getRps` abstracts the delegate's rps counter, outside
src/); push unless the history is empty and rps is not positive (line
681, "Don't push 0 in the begining"); pop the head when the length
exceeds the bound (lines 685-687). -/
def beaconAggregate (getRps : Nat → ℚ) (history_len : Nat) (s : SessionInfo) :
    SessionInfo :=
  let rps := s.backend_throughputs.foldl (fun acc p => acc + getRps p.1) 0
  let h1 := if 0 < s.rps_history.length ∨ 0 < rps then s.rps_history ++ [rps]
            else s.rps_history
  let h2 := if history_len < h1.length then h1.tail else h1
  { s with rps_history := h2 }

/-- Lines 733-750 of EpochSchedule for one session: skipped when the
history is shorter than min_history_len_ (lines 735-738); otherwise the
rps mean and the sample standard deviation (divisor n-1, line 747) give
`estimate_rps = max(last + std, 0.1)` (lines 748-749), and
`unassigned_workload = max(0, estimate_rps - throughput)` (line 750),
before the shrink/grow branches run.  The square root on doubles is
abstracted by the parameter sqrtQ. -/
def epochAdjustPre (sqrtQ : ℚ → ℚ) (min_history_len : Nat) (s : SessionInfo) :
    SessionInfo :=
  let n := s.rps_history.length
  if n < min_history_len then s
  else
    let rps_mean := (s.rps_history.foldl (· + ·) 0) / (n : ℚ)
    let rps_std := sqrtQ
      ((s.rps_history.foldl (fun acc r => acc + (r - rps_mean) * (r - rps_mean)) 0) /
        ((n : ℚ) - 1))
    let estimate_rps := qmax (s.rps_history.getLastD 0 + rps_std) (1 / 10)
    { s with unassigned_workload := qmax 0 (estimate_rps - s.totalThroughput) }

/-! ## Claim C5 -/

/-- C5 (code-bug evaluation): lines 476-481 guard the static-slot
recording with a C++ truthiness test of workload_id, so a dynamic
assigned backend (workload_id = -1, the only kind that satisfies IsIdle
and can win the Assign scan) gets an entry keyed by -1, while an
assigned backend that inherited slot 0 gets no entry - the opposite of
treating "workload_id >= 0" as the static-slot condition. -/
theorem C5_workload_id_truthiness :
    recordReassignedSlot (-1) 7 [] = [(-1, 7)] ∧ recordReassignedSlot 0 7 [] = [] := by
  constructor <;> decide

/-! ## Claim C9 -/

/-- C9 counterexample: the claim says Scheduler::Run sleeps on a monotonic
clock, but line 69 takes `std::chrono::system_clock::now()` - the wall
clock - as the base point for sleep_until. -/
theorem C9_counterexample : ¬ runSleepClock = ClockKind.steadyMonotonic := by
  decide

/-- C9 amended: the control loop sleeps on the wall clock
(std::chrono::system_clock); its tick schedule is computed purely from
the logical second counters, whose invariant is preserved by runStep and
whose elapsed second strictly advances whenever both intervals are
positive. -/
theorem C9_wall_clock_run_loop (beacon epoch : Nat) (hb : 0 < beacon)
    (he : 0 < epoch) (s : RunTick) (hs : RunTickInv beacon epoch s) :
    runSleepClock = ClockKind.systemWall ∧
    s.elapse_sec < (runStep beacon epoch s).elapse_sec ∧
    RunTickInv beacon epoch (runStep beacon epoch s) := by
  obtain ⟨h1, h2, h3, h4⟩ := hs
  have hblt : ¬(0 < s.elapse_sec ∧ s.elapse_sec % beacon = 0) →
      s.elapse_sec < s.last_beacon + beacon := by
    intro hc
    rcases Nat.lt_or_ge s.elapse_sec (s.last_beacon + beacon) with h | h
    · exact h
    · exfalso
      apply hc
      have heq : s.elapse_sec = s.last_beacon + beacon := le_antisymm h3 h
      refine ⟨by omega, ?_⟩
      rw [heq, Nat.add_mod_right]
      exact h1
  have helt : ¬(0 < s.elapse_sec ∧ s.elapse_sec % epoch = 0) →
      s.elapse_sec < s.last_epoch + epoch := by
    intro hc
    rcases Nat.lt_or_ge s.elapse_sec (s.last_epoch + epoch) with h | h
    · exact h
    · exfalso
      apply hc
      have heq : s.elapse_sec = s.last_epoch + epoch := le_antisymm h4 h
      refine ⟨by omega, ?_⟩
      rw [heq, Nat.add_mod_right]
      exact h2
  refine ⟨rfl, ?_⟩
  dsimp only [runStep, RunTickInv]
  split_ifs with hA hB hB
  · exact ⟨by omega, ⟨hA.2, hB.2, by omega, by omega⟩⟩
  · have hE := helt hB
    exact ⟨by omega, ⟨hA.2, h2, by omega, by omega⟩⟩
  · have hBt := hblt hA
    exact ⟨by omega, ⟨h1, hB.2, by omega, by omega⟩⟩
  · have hBt := hblt hA
    have hE := helt hB
    exact ⟨by omega, ⟨h1, h2, by omega, by omega⟩⟩

/-- Witness for the amended C9 theorem at the default intervals
(--beacon 2, --epoch 10) and the initial counters of lines 65-67. -/
theorem C9_wall_clock_run_loop_witness :
    runSleepClock = ClockKind.systemWall ∧
    (0 : Nat) < (runStep 2 10 ⟨0, 0, 0⟩).elapse_sec := by
  have h := C9_wall_clock_run_loop 2 10 (by decide) (by decide) ⟨0, 0, 0⟩
    (by simp only [RunTickInv]; decide)
  exact ⟨h.1, h.2.1⟩

/-! ## Claim C10 -/

/-- C10: a successful Register reply announces the compile-time constant
BEACON_INTERVAL_SEC (lines 314, 327), independent of the --beacon flag,
while the delegates are constructed with the flag-derived
beacon_interval_sec_ (lines 97-106) and use it for IsAlive; the two
intervals differ whenever the flag differs from the constant. -/
theorem C10_register_beacon_constant
    (BEACON_INTERVAL_SEC FLAGS_beacon FLAGS_epoch : Nat)
    (fronts backs : List Nat) (fid bid : Nat)
    (hf : fid ∉ fronts) (hbd : bid ∉ backs) :
    (registerFrontendReply BEACON_INTERVAL_SEC fronts fid).status = CtrlStatus.CTRL_OK ∧
    (registerFrontendReply BEACON_INTERVAL_SEC fronts fid).beacon_interval_sec =
      BEACON_INTERVAL_SEC ∧
    (registerBackendReply BEACON_INTERVAL_SEC backs bid).status = CtrlStatus.CTRL_OK ∧
    (registerBackendReply BEACON_INTERVAL_SEC backs bid).beacon_interval_sec =
      BEACON_INTERVAL_SEC ∧
    delegateBeaconInterval (mkScheduler FLAGS_beacon FLAGS_epoch) = FLAGS_beacon ∧
    (BEACON_INTERVAL_SEC ≠ FLAGS_beacon →
      (registerFrontendReply BEACON_INTERVAL_SEC fronts fid).beacon_interval_sec ≠
        delegateBeaconInterval (mkScheduler FLAGS_beacon FLAGS_epoch)) := by
  simp [registerFrontendReply, registerBackendReply, hf, hbd,
    delegateBeaconInterval, mkScheduler]

/-- Witness for C10 with constant 1, flag 2: the announced interval is 1
and differs from the liveness interval 2. -/
theorem C10_register_beacon_constant_witness :
    (registerFrontendReply 1 [] 5).beacon_interval_sec = 1 ∧
    ¬ (registerFrontendReply 1 [] 5).beacon_interval_sec =
        delegateBeaconInterval (mkScheduler 2 10) := by
  have h := C10_register_beacon_constant 1 2 10 [] [] 5 6 (by decide) (by decide)
  exact ⟨h.2.1, h.2.2.2.2.2 (by decide)⟩

/-! ## Claims C6 and C7 -/

theorem foldl_add_map_sum {α : Type} (f : α → ℚ) (l : List α) (a : ℚ) :
    l.foldl (fun acc x => acc + f x) a = a + (l.map f).sum := by
  induction l generalizing a with
  | nil => simp
  | cons x xs ih =>
    simp only [List.foldl_cons, List.map_cons, List.sum_cons, ih]
    ring

/-- C6: on an EpochSchedule pass a session is adjusted exactly when its
history has at least min_history_len = ceil(epoch/beacon) samples; the
adjusted session's unassigned workload becomes
max(0, max(last_rps + sqrt(Σ (r − mean)² / (n−1)), 1/10) − Σ throughputs)
- the sample standard deviation divides by n−1 - and no other field
changes; this happens before the shrink/grow branches (which only run
afterwards in the source). -/
theorem C6_epoch_estimate (sqrtQ : ℚ → ℚ) (epoch beacon : Nat) (hb : 0 < beacon)
    (s : SessionInfo) :
    minHistoryLen epoch beacon = Nat.ceil ((epoch : ℚ) / (beacon : ℚ)) ∧
    (s.rps_history.length < minHistoryLen epoch beacon →
      epochAdjustPre sqrtQ (minHistoryLen epoch beacon) s = s) ∧
    (minHistoryLen epoch beacon ≤ s.rps_history.length →
      (epochAdjustPre sqrtQ (minHistoryLen epoch beacon) s).unassigned_workload =
        max 0 (max (s.rps_history.getLastD 0 +
            sqrtQ (((s.rps_history.map fun r =>
                (r - s.rps_history.sum / (s.rps_history.length : ℚ)) *
                (r - s.rps_history.sum / (s.rps_history.length : ℚ))).sum) /
              ((s.rps_history.length : ℚ) - 1)))
          (1 / 10) -
          (s.backend_throughputs.map Prod.snd).sum) ∧
      (epochAdjustPre sqrtQ (minHistoryLen epoch beacon) s).rps_history =
        s.rps_history ∧
      (epochAdjustPre sqrtQ (minHistoryLen epoch beacon) s).backend_throughputs =
        s.backend_throughputs ∧
      (epochAdjustPre sqrtQ (minHistoryLen epoch beacon) s).model_sessions =
        s.model_sessions ∧
      (epochAdjustPre sqrtQ (minHistoryLen epoch beacon) s).has_static_workload =
        s.has_static_workload) := by
  refine ⟨minHistoryLen_eq_ceil epoch beacon hb, ?_, ?_⟩
  · intro hlt
    simp only [epochAdjustPre, if_pos hlt]
  · intro hge
    have hnlt : ¬ s.rps_history.length < minHistoryLen epoch beacon := by omega
    have hmean : s.rps_history.foldl (· + ·) 0 = s.rps_history.sum := by
      have := foldl_add_map_sum (fun r => r) s.rps_history 0
      simpa using this
    simp only [epochAdjustPre, if_neg hnlt, hmean, SessionInfo.totalThroughput]
    refine ⟨?_, trivial, trivial, trivial, trivial⟩
    rw [foldl_add_map_sum
      (fun r => (r - s.rps_history.sum / (s.rps_history.length : ℚ)) *
        (r - s.rps_history.sum / (s.rps_history.length : ℚ))) s.rps_history 0,
      zero_add, qmax_eq_max, qmax_eq_max]

/-- Witness for C6 at epoch 10, beacon 2 (min_history_len 5), history
[1,2,3,4,5] and one backend with throughput 2: mean 3, sample variance
10/4, identity sqrt, estimate max(5 + 5/2, 1/10) = 15/2, unassigned
15/2 − 2 = 11/2. -/
theorem C6_epoch_estimate_witness :
    (epochAdjustPre (fun q => q) (minHistoryLen 10 2)
        ⟨[], [(1, 2)], false, 0, [1, 2, 3, 4, 5]⟩).unassigned_workload = 11 / 2 := by
  have h := (C6_epoch_estimate (fun q => q) 10 2 (by decide)
      ⟨[], [(1, 2)], false, 0, [1, 2, 3, 4, 5]⟩).2.2 (by decide)
  rw [h.1]
  norm_num [List.getLastD, sup_eq_max, max_def]

/-- C7: on BeaconCheck, history_len = 2·ceil(epoch/beacon); the summed rps
over serving backends is appended unless the history is empty and rps is
not positive; the oldest entry is dropped exactly when the bound would be
exceeded, so the length stays at most history_len. -/
theorem C7_beacon_rps_history (getRps : Nat → ℚ) (epoch beacon : Nat)
    (hb : 0 < beacon) (he : 0 < epoch) (s : SessionInfo)
    (hlen : s.rps_history.length ≤ historyLen epoch beacon) :
    historyLen epoch beacon = 2 * Nat.ceil ((epoch : ℚ) / (beacon : ℚ)) ∧
    (beaconAggregate getRps (historyLen epoch beacon) s).rps_history.length ≤
      historyLen epoch beacon ∧
    (s.rps_history = [] ∧
        (s.backend_throughputs.map fun p => getRps p.1).sum ≤ 0 →
      (beaconAggregate getRps (historyLen epoch beacon) s).rps_history =
        s.rps_history) ∧
    ((0 < s.rps_history.length ∨
        0 < (s.backend_throughputs.map fun p => getRps p.1).sum) →
      (s.rps_history.length < historyLen epoch beacon →
        (beaconAggregate getRps (historyLen epoch beacon) s).rps_history =
          s.rps_history ++ [(s.backend_throughputs.map fun p => getRps p.1).sum]) ∧
      (s.rps_history.length = historyLen epoch beacon →
        (beaconAggregate getRps (historyLen epoch beacon) s).rps_history =
          s.rps_history.tail ++
            [(s.backend_throughputs.map fun p => getRps p.1).sum])) := by
  have hmin : 0 < minHistoryLen epoch beacon := by
    have h1 : beacon ≤ epoch + beacon - 1 := by omega
    exact (Nat.one_le_div_iff hb).mpr h1
  have hhl : 2 ≤ historyLen epoch beacon := by
    simp only [historyLen]
    omega
  have hr : s.backend_throughputs.foldl (fun acc p => acc + getRps p.1) 0 =
      (s.backend_throughputs.map fun p => getRps p.1).sum := by
    have := foldl_add_map_sum (fun p : Nat × ℚ => getRps p.1) s.backend_throughputs 0
    simpa using this
  refine ⟨?_, ?_, ?_, ?_⟩
  · simp only [historyLen, minHistoryLen_eq_ceil epoch beacon hb]
    omega
  · simp only [beaconAggregate]
    split_ifs with h1 h2 h2 <;>
      simp only [List.length_tail, List.length_append, List.length_singleton] at h2 ⊢ <;>
      omega
  · rintro ⟨h0, hle⟩
    have hcond : ¬ (0 < s.rps_history.length ∨
        0 < s.backend_throughputs.foldl (fun acc p => acc + getRps p.1) 0) := by
      rintro (ha | hb)
      · rw [h0] at ha
        simp at ha
      · rw [hr] at hb
        exact absurd hb (not_lt.mpr hle)
    simp only [beaconAggregate, if_neg hcond]
    rw [if_neg (by omega)]
  · intro hcase
    have hcond : (0 < s.rps_history.length ∨
        0 < s.backend_throughputs.foldl (fun acc p => acc + getRps p.1) 0) := by
      rcases hcase with ha | hb
      · exact Or.inl ha
      · exact Or.inr (by rw [hr]; exact hb)
    constructor
    · intro hlt
      simp only [beaconAggregate, if_pos hcond]
      rw [if_neg (by simp only [List.length_append, List.length_singleton]; omega)]
      simp only [hr]
    · intro heq
      have hne : s.rps_history ≠ [] := by
        intro h0
        rw [h0] at heq
        simp at heq
        omega
      obtain ⟨x, xs, hxxs⟩ := List.exists_cons_of_ne_nil hne
      simp only [beaconAggregate, if_pos hcond]
      rw [if_pos (by simp only [List.length_append, List.length_singleton]; omega)]
      simp only [hr, hxxs, List.cons_append, List.tail_cons]

/-- Witness for C7 at epoch 10, beacon 2 (history_len 10), history [1,2]
and one serving backend reporting rps 1: the history becomes [1,2,1]. -/
theorem C7_beacon_rps_history_witness :
    (beaconAggregate (fun _ => 1) (historyLen 10 2)
        ⟨[], [(1, 0)], false, 0, [1, 2]⟩).rps_history = [1, 2, 1] := by
  have h := (C7_beacon_rps_history (fun _ => 1) 10 2 (by decide) (by decide)
      ⟨[], [(1, 0)], false, 0, [1, 2]⟩ (by decide)).2.2.2 (by right; norm_num)
  have h2 := h.1 (by decide)
  rw [h2]
  norm_num

/-! ## Claim C3: FindBestBackend lemmas -/

theorem selMax_ne_none (score : MLoad → ℚ) (acc : Option MLoad) (c : MLoad) :
    selMax score acc c ≠ none := by
  cases acc with
  | none => simp [selMax]
  | some c0 =>
    simp only [selMax]
    split <;> simp

theorem foldl_selMax_none_iff (score : MLoad → ℚ) (l : List MLoad)
    (acc : Option MLoad) :
    l.foldl (selMax score) acc = none ↔ acc = none ∧ l = [] := by
  induction l generalizing acc with
  | nil => simp
  | cons x xs ih =>
    simp only [List.foldl_cons, ih]
    simp [selMax_ne_none score acc x]

theorem selMax_cases (score : MLoad → ℚ) (acc : Option MLoad) (x : MLoad) :
    (selMax score acc x = some x ∧ ∀ a, acc = some a → score a ≤ score x) ∨
    (∃ a, acc = some a ∧ selMax score acc x = some a ∧ score x ≤ score a) := by
  cases acc with
  | none =>
    left
    exact ⟨rfl, by simp⟩
  | some a =>
    by_cases hgt : score x > score a
    · left
      refine ⟨by simp [selMax, hgt], ?_⟩
      intro b hb
      injection hb with hba
      subst hba
      exact le_of_lt hgt
    · right
      exact ⟨a, rfl, by simp [selMax, hgt], not_lt.mp hgt⟩

theorem foldl_selMax_spec (score : MLoad → ℚ) (l : List MLoad)
    (acc : Option MLoad) (c : MLoad)
    (h : l.foldl (selMax score) acc = some c) :
    (acc = some c ∨ c ∈ l) ∧
    (∀ a, acc = some a → score a ≤ score c) ∧
    (∀ d ∈ l, score d ≤ score c) := by
  induction l generalizing acc with
  | nil =>
    simp only [List.foldl_nil] at h
    refine ⟨Or.inl h, ?_, by simp⟩
    intro a ha
    rw [ha] at h
    injection h with hac
    rw [hac]
  | cons x xs ih =>
    simp only [List.foldl_cons] at h
    obtain ⟨hmem, hacc, hlist⟩ := ih (selMax score acc x) h
    rcases selMax_cases score acc x with ⟨hsel, hdom⟩ | ⟨a, haeq, hsel, hxa⟩
    · have hx_le : score x ≤ score c := hacc x hsel
      refine ⟨?_, ?_, ?_⟩
      · rcases hmem with hm | hm
        · rw [hsel] at hm
          injection hm with hm
          exact Or.inr (by rw [← hm]; exact List.mem_cons_self x xs)
        · exact Or.inr (List.mem_cons_of_mem x hm)
      · intro a ha
        exact le_trans (hdom a ha) hx_le
      · intro d hd
        rcases List.mem_cons.mp hd with hdx | hdxs
        · rw [hdx]; exact hx_le
        · exact hlist d hdxs
    · have ha_le : score a ≤ score c := hacc a hsel
      refine ⟨?_, ?_, ?_⟩
      · rcases hmem with hm | hm
        · rw [hsel] at hm
          injection hm with hm
          subst hm
          exact Or.inl haeq
        · exact Or.inr (List.mem_cons_of_mem x hm)
      · intro b hb
        rw [haeq] at hb
        injection hb with hb
        subst hb
        exact ha_le
      · intro d hd
        rcases List.mem_cons.mp hd with hdx | hdxs
        · rw [hdx]; exact le_trans hxa ha_le
        · exact hlist d hdxs

/-- The single scan of lines 610-636 equals the two first-maximum folds
over the candidate list. -/
theorem fbFold_eq (prepare : Nat → ModelSession → ℚ → Option (InstanceInfo × ℚ))
    (m : ModelSession) (rate : ℚ) (skips : List Nat)
    (backends : List BackendDelegate) (t0 o0 : Option MLoad) :
    backends.foldl (fbStep prepare m rate skips) (t0, o0) =
      ((fbCandidates prepare m rate skips backends).foldl (selMax mtp) t0,
       (fbCandidates prepare m rate skips backends).foldl (selMax mocc) o0) := by
  induction backends generalizing t0 o0 with
  | nil => simp [fbCandidates]
  | cons b bs ih =>
    simp only [List.foldl_cons, fbCandidates, List.filterMap_cons]
    by_cases he : eligibleBackend rate skips b
    · cases hp : prepare b.node_id m rate with
      | none =>
        simp only [fbStep, he, if_true, hp]
        simpa [fbCandidates] using ih t0 o0
      | some pr =>
        simp only [fbStep, he, if_true, hp, Option.map_some]
        have := ih (selMax mtp t0 (b.node_id, pr.1, pr.2))
          (selMax mocc o0 (b.node_id, pr.1, pr.2))
        simpa [fbCandidates, selMax] using this
    · simp only [fbStep, he, if_false, Bool.false_eq_true]
      simpa [fbCandidates] using ih t0 o0

/-- Membership in the candidate list unpacks to the eligibility conditions
of lines 612-626. -/
theorem mem_fbCandidates_iff (prepare : Nat → ModelSession → ℚ → Option (InstanceInfo × ℚ))
    (m : ModelSession) (rate : ℚ) (skips : List Nat)
    (backends : List BackendDelegate) (c : MLoad) :
    c ∈ fbCandidates prepare m rate skips backends ↔
      ∃ b ∈ backends, b.node_id = c.1 ∧ skips.contains b.node_id = false ∧
        b.alive = true ∧ b.workload_id < 0 ∧ (rate = 0 → b.IsIdle = true) ∧
        prepare b.node_id m rate = some (c.2.1, c.2.2) := by
  simp only [fbCandidates, List.mem_filterMap]
  constructor
  · rintro ⟨b, hb, hf⟩
    by_cases he : eligibleBackend rate skips b
    · rw [if_pos he] at hf
      rcases Option.map_eq_some'.mp hf with ⟨pr, hpr, hc⟩
      subst hc
      have he' : skips.contains b.node_id = false ∧ b.alive = true ∧
          b.workload_id < 0 ∧ (rate = 0 → b.IsIdle = true) := by
        simp only [eligibleBackend, Bool.and_eq_true, Bool.not_eq_true',
          decide_eq_true_eq, Bool.or_eq_true, Bool.not_eq_true,
          decide_eq_false_iff_not] at he
        refine ⟨he.1.1.1, he.1.1.2, he.1.2, ?_⟩
        intro h0
        rcases he.2 with h | h
        · exact absurd h0 h
        · exact h
      exact ⟨b, hb, rfl, he'.1, he'.2.1, he'.2.2.1, he'.2.2.2, hpr⟩
    · rw [if_neg he] at hf
      exact absurd hf (by simp)
  · rintro ⟨b, hb, hid, hskip, halive, hwl, hidle, hprep⟩
    refine ⟨b, hb, ?_⟩
    have he : eligibleBackend rate skips b = true := by
      simp only [eligibleBackend, Bool.and_eq_true, Bool.not_eq_true',
        decide_eq_true_eq, Bool.or_eq_true, Bool.not_eq_true,
        decide_eq_false_iff_not]
      refine ⟨⟨⟨hskip, halive⟩, hwl⟩, ?_⟩
      by_cases h0 : rate = 0
      · exact Or.inr (hidle h0)
      · exact Or.inl h0
    rw [if_pos he, hprep]
    simp only [Option.map_some']
    rw [hid]

/-- Final selection of lines 637-651 as a function of the two scan
results. -/
def fbSelect (rate : ℚ) : Option MLoad → Option MLoad → Option (Nat × InstanceInfo)
  | none, _ => none
  | some tc, o =>
    if rate = 0 then some (tc.1, tc.2.1)
    else if mtp tc < rate then some (tc.1, tc.2.1)
    else o.map fun c => (c.1, c.2.1)

theorem FindBestBackend_eq_select
    (prepare : Nat → ModelSession → ℚ → Option (InstanceInfo × ℚ))
    (m : ModelSession) (rate : ℚ) (skips : List Nat)
    (backends : List BackendDelegate) :
    FindBestBackend prepare m rate skips backends =
      fbSelect rate
        ((fbCandidates prepare m rate skips backends).foldl (selMax mtp) none)
        ((fbCandidates prepare m rate skips backends).foldl (selMax mocc) none) := by
  simp only [FindBestBackend]
  rw [fbFold_eq]
  cases htf : (fbCandidates prepare m rate skips backends).foldl (selMax mtp) none with
  | none =>
    have hnil := ((foldl_selMax_none_iff mtp _ none).mp htf).2
    rw [hnil]
    simp [fbSelect, foldl_selMax_none_iff]
  | some tc =>
    by_cases h0 : rate = 0 <;> simp [fbSelect, h0]

/-- C3: the returned backend is always one of the candidates - the alive,
dynamic, non-skipped backends (idle ones only when the rate is zero) whose
PrepareLoadModel succeeds; none is returned iff there is no candidate;
with rate 0 the result maximises throughput among the candidates; with a
nonzero rate it maximises throughput when every candidate's throughput is
below the rate and otherwise maximises occupancy. -/
theorem C3_find_best_backend
    (prepare : Nat → ModelSession → ℚ → Option (InstanceInfo × ℚ))
    (m : ModelSession) (rate : ℚ) (skips : List Nat)
    (backends : List BackendDelegate) :
    (FindBestBackend prepare m rate skips backends = none ↔
      fbCandidates prepare m rate skips backends = []) ∧
    (∀ bid inst, FindBestBackend prepare m rate skips backends = some (bid, inst) →
      (∃ occ, (bid, inst, occ) ∈ fbCandidates prepare m rate skips backends ∧
        ∃ b ∈ backends, b.node_id = bid ∧ skips.contains b.node_id = false ∧
          b.alive = true ∧ b.workload_id < 0 ∧ (rate = 0 → b.IsIdle = true) ∧
          prepare b.node_id m rate = some (inst, occ)) ∧
      (rate = 0 →
        ∀ c ∈ fbCandidates prepare m rate skips backends,
          mtp c ≤ inst.throughput) ∧
      (rate ≠ 0 →
        (∀ c ∈ fbCandidates prepare m rate skips backends, mtp c < rate) →
        ∀ c ∈ fbCandidates prepare m rate skips backends,
          mtp c ≤ inst.throughput) ∧
      (rate ≠ 0 →
        (∃ c ∈ fbCandidates prepare m rate skips backends, rate ≤ mtp c) →
        ∃ occ, (bid, inst, occ) ∈ fbCandidates prepare m rate skips backends ∧
          ∀ c ∈ fbCandidates prepare m rate skips backends, mocc c ≤ occ)) := by
  have heq := FindBestBackend_eq_select prepare m rate skips backends
  constructor
  · rw [heq]
    cases htf : (fbCandidates prepare m rate skips backends).foldl (selMax mtp) none with
    | none =>
      have hnil := ((foldl_selMax_none_iff mtp _ none).mp htf).2
      simp [fbSelect, hnil]
    | some tc =>
      have hcne : fbCandidates prepare m rate skips backends ≠ [] := by
        intro hnil
        rw [hnil] at htf
        simp at htf
      simp only [fbSelect]
      constructor
      · intro hc
        split_ifs at hc
        rw [Option.map_eq_none'] at hc
        exact absurd ((foldl_selMax_none_iff mocc _ none).mp hc).2 hcne
      · intro hnil
        exact absurd hnil hcne
  · intro bid inst h
    rw [heq] at h
    cases htf : (fbCandidates prepare m rate skips backends).foldl (selMax mtp) none with
    | none =>
      rw [htf] at h
      simp [fbSelect] at h
    | some tc =>
      rw [htf] at h
      obtain ⟨hmemt, _, hmaxt⟩ := foldl_selMax_spec mtp _ none tc htf
      have htm : tc ∈ fbCandidates prepare m rate skips backends := by
        rcases hmemt with hm | hm
        · exact absurd hm (by simp)
        · exact hm
      have hpack : ∀ c : MLoad, c ∈ fbCandidates prepare m rate skips backends →
          c.1 = bid → c.2.1 = inst →
          ∃ occ, (bid, inst, occ) ∈ fbCandidates prepare m rate skips backends ∧
            ∃ b ∈ backends, b.node_id = bid ∧ skips.contains b.node_id = false ∧
              b.alive = true ∧ b.workload_id < 0 ∧ (rate = 0 → b.IsIdle = true) ∧
              prepare b.node_id m rate = some (inst, occ) := by
        intro c hcm h1 h2
        have hcc : (bid, inst, c.2.2) = c := by
          rw [← h1, ← h2]
        refine ⟨c.2.2, by rw [hcc]; exact hcm, ?_⟩
        obtain ⟨b, hb, hrest⟩ := (mem_fbCandidates_iff prepare m rate skips backends c).mp hcm
        exact ⟨b, hb, by rw [hrest.1, h1], hrest.2.1, hrest.2.2.1,
          hrest.2.2.2.1, hrest.2.2.2.2.1, by rw [h2] at hrest; exact hrest.2.2.2.2.2⟩
      by_cases h0 : rate = 0
      · simp only [fbSelect, if_pos h0] at h
        injection h with hh
        rw [Prod.mk.injEq] at hh
        refine ⟨hpack tc htm hh.1 hh.2, ?_, ?_, ?_⟩
        · intro _ d hd
          rw [← hh.2]
          exact hmaxt d hd
        · intro hne
          exact absurd h0 hne
        · intro hne
          exact absurd h0 hne
      · simp only [fbSelect, if_neg h0] at h
        by_cases hlt : mtp tc < rate
        · rw [if_pos hlt] at h
          injection h with hh
          rw [Prod.mk.injEq] at hh
          refine ⟨hpack tc htm hh.1 hh.2, ?_, ?_, ?_⟩
          · intro h0'
            exact absurd h0' h0
          · intro _ _ d hd
            rw [← hh.2]
            exact hmaxt d hd
          · intro _ hex
            exfalso
            obtain ⟨c, hcm, hcr⟩ := hex
            exact absurd (lt_of_le_of_lt (le_trans hcr (hmaxt c hcm)) hlt)
              (lt_irrefl rate)
        · rw [if_neg hlt] at h
          rcases Option.map_eq_some'.mp h with ⟨c, hc, hce⟩
          obtain ⟨hmemo, _, hmaxo⟩ := foldl_selMax_spec mocc _ none c hc
          have hcm : c ∈ fbCandidates prepare m rate skips backends := by
            rcases hmemo with hm | hm
            · exact absurd hm (by simp)
            · exact hm
          rw [Prod.mk.injEq] at hce
          refine ⟨hpack c hcm hce.1 hce.2, ?_, ?_, ?_⟩
          · intro h0'
            exact absurd h0' h0
          · intro _ hall
            exfalso
            exact absurd (hall tc htm) hlt
          · intro _ _
            have hcc : (bid, inst, c.2.2) = c := by
              rw [← hce.1, ← hce.2]
            refine ⟨c.2.2, by rw [hcc]; exact hcm, ?_⟩
            intro d hd
            exact hmaxo d hd

/-- Witness for C3: one alive dynamic backend whose PrepareLoadModel
offers throughput 5 at rate 3; FindBestBackend returns it, and the
candidate list is nonempty as the theorem requires. -/
theorem C3_find_best_backend_witness :
    FindBestBackend (fun _ _ _ => some (⟨5⟩, 1 / 2)) default 3 []
        [⟨1, true, -1, []⟩] = some (1, ⟨5⟩) ∧
    fbCandidates (fun _ _ _ => some (⟨5⟩, 1 / 2)) default 3 []
        [⟨1, true, -1, []⟩] ≠ [] := by
  have h := (C3_find_best_backend (fun _ _ _ => some (⟨5⟩, 1 / 2)) default 3 []
      [⟨1, true, -1, []⟩]).2 1 ⟨5⟩ (by decide)
  refine ⟨by decide, ?_⟩
  intro hnil
  obtain ⟨⟨occ, hocc, _⟩, _⟩ := h
  rw [hnil] at hocc
  simp at hocc

/-! ## Claim C8: determinism of AllocateUnassignedWorkloads -/

/-- Environment for the C8 tie counterexample: every backend offers the
same plan (throughput 5, occupancy 1/2). -/
def env8 : Env :=
  { getModelInfo := fun _ => none
    getPrefixShareModels := fun _ => []
    prepare := fun _ _ _ => some (⟨5⟩, 1 / 2)
    enable_prefix_batch := true }

/-- One session with unassigned workload 4; two idle dynamic backends in
one iteration order... -/
def exSt8a : SchedState :=
  { backends := [⟨1, true, -1, []⟩, ⟨2, true, -1, []⟩]
    sessions := [⟨[default], [], false, 4, []⟩]
    session_table := [(default, 0)]
    frontends := []
    session_subscribers := [] }

/-- ...and the same snapshot with the backends in the other iteration
order (the same unordered_map content). -/
def exSt8b : SchedState :=
  { backends := [⟨2, true, -1, []⟩, ⟨1, true, -1, []⟩]
    sessions := [⟨[default], [], false, 4, []⟩]
    session_table := [(default, 0)]
    frontends := []
    session_subscribers := [] }

/-- C8 counterexample: the two snapshots are equal as maps (the backend
lists are permutations and everything else coincides), yet
AllocateUnassignedWorkloads assigns the session to backend 1 in one run
and to backend 2 in the other: the throughput/occupancy tie is broken by
the scan order of the unordered backends_ map (lines 610-611), which is
not node_id order, so the outcome is not a function of the abstract
snapshot. -/
theorem C8_counterexample :
    exSt8a.backends.Perm exSt8b.backends ∧
    exSt8a.sessions = exSt8b.sessions ∧
    exSt8a.session_table = exSt8b.session_table ∧
    (AllocateUnassignedWorkloads env8 4 exSt8a).1.sessions ≠
      (AllocateUnassignedWorkloads env8 4 exSt8b).1.sessions := by
  refine ⟨?_, rfl, rfl, ?_⟩ <;> decide

/-- C8 amended: FindBestBackend - the backend scan that decides every
assignment of AllocateUnassignedWorkloads - is invariant under
permutations of the backend table whenever the candidates' throughputs
are pairwise distinct and their occupancies are pairwise distinct; with
ties the selection follows the container iteration order, so the
allocation outcome is a deterministic function only of the ordered
snapshot. -/
theorem C8_find_best_perm_invariant
    (prepare : Nat → ModelSession → ℚ → Option (InstanceInfo × ℚ))
    (m : ModelSession) (rate : ℚ) (skips : List Nat)
    (l1 l2 : List BackendDelegate) (hperm : l1.Perm l2)
    (htp : ∀ c ∈ fbCandidates prepare m rate skips l1,
      ∀ d ∈ fbCandidates prepare m rate skips l1, mtp c = mtp d → c = d)
    (hocc : ∀ c ∈ fbCandidates prepare m rate skips l1,
      ∀ d ∈ fbCandidates prepare m rate skips l1, mocc c = mocc d → c = d) :
    FindBestBackend prepare m rate skips l1 =
      FindBestBackend prepare m rate skips l2 := by
  have hpc : (fbCandidates prepare m rate skips l1).Perm
      (fbCandidates prepare m rate skips l2) := hperm.filterMap _
  rw [FindBestBackend_eq_select, FindBestBackend_eq_select]
  cases h1 : (fbCandidates prepare m rate skips l1).foldl (selMax mtp) none with
  | none =>
    have hnil := ((foldl_selMax_none_iff mtp _ none).mp h1).2
    have hnil2 : fbCandidates prepare m rate skips l2 = [] := by
      rw [hnil] at hpc
      exact hpc.symm.eq_nil
    rw [hnil, hnil2]
    simp [fbSelect]
  | some t1 =>
    cases h2 : (fbCandidates prepare m rate skips l2).foldl (selMax mtp) none with
    | none =>
      exfalso
      have hnil2 := ((foldl_selMax_none_iff mtp _ none).mp h2).2
      rw [hnil2] at hpc
      rw [hpc.eq_nil] at h1
      simp at h1
    | some t2 =>
      obtain ⟨hm1, _, hmax1⟩ := foldl_selMax_spec mtp _ none t1 h1
      obtain ⟨hm2, _, hmax2⟩ := foldl_selMax_spec mtp _ none t2 h2
      have ht1c : t1 ∈ fbCandidates prepare m rate skips l1 := by
        rcases hm1 with hm | hm
        · exact absurd hm (by simp)
        · exact hm
      have ht2c2 : t2 ∈ fbCandidates prepare m rate skips l2 := by
        rcases hm2 with hm | hm
        · exact absurd hm (by simp)
        · exact hm
      have ht2c1 : t2 ∈ fbCandidates prepare m rate skips l1 :=
        hpc.mem_iff.mpr ht2c2
      have ht1c2 : t1 ∈ fbCandidates prepare m rate skips l2 :=
        hpc.mem_iff.mp ht1c
      have heqtp : mtp t1 = mtp t2 :=
        le_antisymm (hmax2 t1 ht1c2) (hmax1 t2 ht2c1)
      have ht12 : t1 = t2 := htp t1 ht1c t2 ht2c1 heqtp
      cases ho1 : (fbCandidates prepare m rate skips l1).foldl (selMax mocc) none with
      | none =>
        exfalso
        have hnil := ((foldl_selMax_none_iff mocc _ none).mp ho1).2
        rw [hnil] at ht1c
        exact absurd ht1c (by simp)
      | some o1 =>
        cases ho2 : (fbCandidates prepare m rate skips l2).foldl (selMax mocc) none with
        | none =>
          exfalso
          have hnil := ((foldl_selMax_none_iff mocc _ none).mp ho2).2
          rw [hnil] at ht2c2
          exact absurd ht2c2 (by simp)
        | some o2 =>
          obtain ⟨hmo1, _, hmaxo1⟩ := foldl_selMax_spec mocc _ none o1 ho1
          obtain ⟨hmo2, _, hmaxo2⟩ := foldl_selMax_spec mocc _ none o2 ho2
          have ho1c : o1 ∈ fbCandidates prepare m rate skips l1 := by
            rcases hmo1 with hm | hm
            · exact absurd hm (by simp)
            · exact hm
          have ho2c2 : o2 ∈ fbCandidates prepare m rate skips l2 := by
            rcases hmo2 with hm | hm
            · exact absurd hm (by simp)
            · exact hm
          have ho2c1 : o2 ∈ fbCandidates prepare m rate skips l1 :=
            hpc.mem_iff.mpr ho2c2
          have ho1c2 : o1 ∈ fbCandidates prepare m rate skips l2 :=
            hpc.mem_iff.mp ho1c
          have heqocc : mocc o1 = mocc o2 :=
            le_antisymm (hmaxo2 o1 ho1c2) (hmaxo1 o2 ho2c1)
          have ho12 : o1 = o2 := hocc o1 ho1c o2 ho2c1 heqocc
          rw [ht12, ho12]

/-- Witness for the amended C8 at distinct candidate scores: two backends
whose plans have different throughputs and occupancies; both scan orders
pick the same backend. -/
theorem C8_find_best_perm_invariant_witness :
    FindBestBackend (fun nid _ _ => some (⟨nid⟩, nid)) default 3 []
        [⟨1, true, -1, []⟩, ⟨2, true, -1, []⟩] =
      FindBestBackend (fun nid _ _ => some (⟨nid⟩, nid)) default 3 []
        [⟨2, true, -1, []⟩, ⟨1, true, -1, []⟩] :=
  C8_find_best_perm_invariant (fun nid _ _ => some (⟨nid⟩, nid)) default 3 []
    [⟨1, true, -1, []⟩, ⟨2, true, -1, []⟩] [⟨2, true, -1, []⟩, ⟨1, true, -1, []⟩]
    (List.Perm.swap _ _ _) (by decide) (by decide)

/-! ## Claims C1 and C2: the LoadModel handler paths -/

theorem mem_insertNew_self {α : Type} [DecidableEq α] (x : α) (l : List α) :
    x ∈ insertNew x l := by
  unfold insertNew
  split
  · assumption
  · simp

theorem mem_insertNew_of_mem {α : Type} [DecidableEq α] {y : α} (x : α)
    {l : List α} (h : y ∈ l) : y ∈ insertNew x l := by
  unfold insertNew
  split
  · exact h
  · simp [h]

theorem lookupA_map_update {α β : Type} [DecidableEq α] (l : List (α × β))
    (k : α) (f : β → β) :
    lookupA (l.map fun p => if p.1 = k then (p.1, f p.2) else p) k =
      (lookupA l k).map f := by
  induction l with
  | nil => rfl
  | cons p rest ih =>
    obtain ⟨a, b⟩ := p
    by_cases hak : a = k
    · subst hak
      simp only [List.map_cons]
      simp [lookupA]
    · simp only [List.map_cons]
      rw [if_neg (by simpa using hak)]
      simp only [lookupA]
      rw [if_neg (fun h => hak h.symm), if_neg (fun h => hak h.symm)]
      exact ih

theorem lookupA_append_new {α β : Type} [DecidableEq α] (l : List (α × β))
    (k : α) (v : β) (h : lookupA l k = none) :
    lookupA (l ++ [(k, v)]) k = some v := by
  induction l with
  | nil => simp [lookupA]
  | cons p rest ih =>
    obtain ⟨a, b⟩ := p
    simp only [lookupA] at h ⊢
    by_cases hak : k = a
    · rw [if_pos hak] at h
      exact absurd h (by simp)
    · rw [if_neg hak] at h ⊢
      exact ih h

/-- Upsert semantics of lines 154-158: after the call the key is bound,
the frontend is in the set, and previous members are kept - whether or
not the entry existed before (the eviction case of the spec's open
question). -/
theorem upsertSubscriber_spec (subs : List (ModelSession × List Nat))
    (k : ModelSession) (fid : Nat) :
    ∃ l, lookupA (upsertSubscriber subs k fid) k = some l ∧ fid ∈ l ∧
      ∀ g l0, lookupA subs k = some l0 → g ∈ l0 → g ∈ l := by
  unfold upsertSubscriber
  cases hk : lookupA subs k with
  | none =>
    refine ⟨[fid], lookupA_append_new subs k [fid] hk, by simp, ?_⟩
    intro g l0 hl0 hg
    simp at hl0
  | some l0 =>
    refine ⟨insertNew fid l0, ?_, mem_insertNew_self fid l0, ?_⟩
    · rw [lookupA_map_update subs k (insertNew fid), hk]
      rfl
    · intro g l1 hl1 hg
      injection hl1 with hl1
      subst hl1
      exact mem_insertNew_of_mem fid hg

/-- C1: for a fresh LoadModel (session not in the table, no
prefix-sharing session attached) whose allocation fails because
FindBestBackend returns no backend at some step (also at a step after
earlier successful steps), the reply is NOT_ENOUGH_BACKENDS, the state is
returned unchanged, and no instruction is issued to any backend. -/
theorem C1_alloc_failure_no_mutation (env : Env) (fuel : Nat)
    (req : LoadModelRequest) (st : SchedState) (info : ModelInfo)
    (hinfo : env.getModelInfo (ModelSessionToModelID req.model_session) = some info)
    (hfe : (lookupA st.frontends req.node_id).isSome)
    (hdup : lookupA st.session_table (defaultFill info req.model_session) = none)
    (hnoshare : env.enable_prefix_batch = true →
      findShareSession st (defaultFill info req.model_session)
        (env.getPrefixShareModels
          (ModelSessionToModelID (defaultFill info req.model_session))) = none)
    (halloc : freshAlloc env (defaultFill info req.model_session)
      req.estimate_workload fuel st.backends = AllocOutcome.noBackend) :
    loadModelHandler env fuel req st =
      LoadModelResult.reply ⟨CtrlStatus.NOT_ENOUGH_BACKENDS, []⟩ st [] := by
  obtain ⟨subs, hsubs⟩ := Option.isSome_iff_exists.mp hfe
  by_cases hpb : env.enable_prefix_batch = true
  · simp only [loadModelHandler, hinfo, hsubs, hdup, hpb, if_true,
      hnoshare hpb, halloc]
  · have hpbf : env.enable_prefix_batch = false := by
      cases h : env.enable_prefix_batch
      · rfl
      · exact absurd h hpb
    simp only [loadModelHandler, hinfo, hsubs, hdup, hpbf, Bool.false_eq_true,
      if_false, halloc]

/-- Witness for C1: a registered frontend, an empty session table and no
backends; the allocation loop fails at its first step and the handler
replies NOT_ENOUGH_BACKENDS leaving the state untouched. -/
theorem C1_alloc_failure_no_mutation_witness :
    loadModelHandler
        ⟨fun _ => some ⟨false, 0, 0⟩, fun _ => [], fun _ _ _ => none, true⟩ 3
        ⟨9, default, 4⟩ ⟨[], [], [], [(9, [])], []⟩ =
      LoadModelResult.reply ⟨CtrlStatus.NOT_ENOUGH_BACKENDS, []⟩
        ⟨[], [], [], [(9, [])], []⟩ [] :=
  C1_alloc_failure_no_mutation
    ⟨fun _ => some ⟨false, 0, 0⟩, fun _ => [], fun _ _ _ => none, true⟩ 3
    ⟨9, default, 4⟩ ⟨[], [], [], [(9, [])], []⟩ ⟨false, 0, 0⟩
    rfl (by decide) rfl (fun _ => rfl) (by decide)

/-- C2: a LoadModel naming a session already present in the table replies
CTRL_OK with the session's current route, issues no instruction, leaves
backends, sessions and session_table untouched, adds the session to the
frontend's subscription set and upserts the frontend into the session's
subscriber set - the frontend is inserted even when the subscriber entry
was previously evicted or emptied, and existing subscribers are kept. -/
theorem C2_duplicate_load_subscribes (env : Env) (fuel : Nat)
    (req : LoadModelRequest) (st : SchedState) (info : ModelInfo) (idx : Nat)
    (hinfo : env.getModelInfo (ModelSessionToModelID req.model_session) = some info)
    (hfe : (lookupA st.frontends req.node_id).isSome)
    (hdup : lookupA st.session_table (defaultFill info req.model_session) = some idx) :
    ∃ st', loadModelHandler env fuel req st =
        LoadModelResult.reply
          ⟨CtrlStatus.CTRL_OK, getModelRoute st (defaultFill info req.model_session)⟩
          st' [] ∧
      st'.backends = st.backends ∧
      st'.sessions = st.sessions ∧
      st'.session_table = st.session_table ∧
      (∃ l, lookupA st'.session_subscribers (defaultFill info req.model_session) =
          some l ∧ req.node_id ∈ l ∧
        ∀ g l0, lookupA st.session_subscribers (defaultFill info req.model_session) =
          some l0 → g ∈ l0 → g ∈ l) ∧
      (∃ ks, lookupA st'.frontends req.node_id = some ks ∧
        defaultFill info req.model_session ∈ ks ∧
        ∀ k0 ks0, lookupA st.frontends req.node_id = some ks0 → k0 ∈ ks0 → k0 ∈ ks) := by
  obtain ⟨subs, hsubs⟩ := Option.isSome_iff_exists.mp hfe
  refine ⟨{ st with
      frontends := subscribeModel st.frontends req.node_id
        (defaultFill info req.model_session)
      session_subscribers := upsertSubscriber st.session_subscribers
        (defaultFill info req.model_session) req.node_id },
    ?_, rfl, rfl, rfl, ?_, ?_⟩
  · simp only [loadModelHandler, hinfo, hsubs, hdup]
  · exact upsertSubscriber_spec st.session_subscribers
      (defaultFill info req.model_session) req.node_id
  · refine ⟨insertNew (defaultFill info req.model_session) subs, ?_,
      mem_insertNew_self _ subs, ?_⟩
    · show lookupA (subscribeModel st.frontends req.node_id
        (defaultFill info req.model_session)) req.node_id = _
      rw [subscribeModel, lookupA_map_update st.frontends req.node_id
        (insertNew (defaultFill info req.model_session)), hsubs]
      rfl
    · intro k0 ks0 hks0 hk0
      rw [hsubs] at hks0
      injection hks0 with hks0
      subst hks0
      exact mem_insertNew_of_mem _ hk0

/-- Witness for C2: a registered frontend re-requests a session served by
backend 1 with throughput 5; the reply carries the current route and the
frontend lands in both subscription sets. -/
theorem C2_duplicate_load_subscribes_witness :
    ∃ st', loadModelHandler
        ⟨fun _ => some ⟨false, 0, 0⟩, fun _ => [], fun _ _ _ => none, true⟩ 3
        ⟨9, default, 4⟩
        ⟨[⟨1, true, -1, [default]⟩], [⟨[default], [(1, 5)], false, 0, []⟩],
          [(default, 0)], [(9, [])], []⟩ =
      LoadModelResult.reply ⟨CtrlStatus.CTRL_OK, [(1, 5)]⟩ st' [] ∧
      st'.backends = [⟨1, true, -1, [default]⟩] := by
  obtain ⟨st', h1, h2, _⟩ := C2_duplicate_load_subscribes
    ⟨fun _ => some ⟨false, 0, 0⟩, fun _ => [], fun _ _ _ => none, true⟩ 3
    ⟨9, default, 4⟩
    ⟨[⟨1, true, -1, [default]⟩], [⟨[default], [(1, 5)], false, 0, []⟩],
      [(default, 0)], [(9, [])], []⟩ ⟨false, 0, 0⟩ 0 rfl (by decide) (by decide)
  refine ⟨st', ?_, h2⟩
  have hroute : getModelRoute
      ⟨[⟨1, true, -1, [default]⟩], [⟨[default], [(1, 5)], false, 0, []⟩],
        [(default, 0)], [(9, [])], []⟩
      (defaultFill ⟨false, 0, 0⟩ default) = [(1, 5)] := by decide
  rw [hroute] at h1
  exact h1

/-! ## Claim C4: trace lemmas -/

def isUnload : Instr → Bool
  | .unloadModel _ _ => true
  | _ => false

def isLoadPrefix : Instr → Bool
  | .loadPrefixModel _ _ _ => true
  | _ => false

theorem installedB_append (tr is : List Instr) (b : Nat) (m : ModelSession) :
    installedB (tr ++ is) b m = is.foldl (installedStep b m) (installedB tr b m) := by
  simp [installedB, List.foldl_append]

theorem foldl_installedStep_true (b : Nat) (m : ModelSession) (is : List Instr)
    (hno : ∀ i ∈ is, instrUnloads b m i = false) :
    is.foldl (installedStep b m) true = true := by
  induction is with
  | nil => rfl
  | cons i rest ih =>
    simp only [List.foldl_cons]
    have hstep : installedStep b m true i = true := by
      unfold installedStep
      split
      · rfl
      · rw [if_neg]
        intro hcon
        exact absurd (hno i (List.mem_cons_self i rest)) (by simp [hcon])
    rw [hstep]
    exact ih fun j hj => hno j (List.mem_cons_of_mem i hj)

theorem installedB_append_true (tr is : List Instr) (b : Nat) (m : ModelSession)
    (h : installedB tr b m = true)
    (hno : ∀ i ∈ is, instrUnloads b m i = false) :
    installedB (tr ++ is) b m = true := by
  rw [installedB_append, h]
  exact foldl_installedStep_true b m is hno

theorem installedB_irrelevant_append (tr is : List Instr) (b : Nat)
    (m : ModelSession) (hno : ∀ i ∈ is, instrUnloads b m i = false) :
    installedB tr b m = true → installedB (tr ++ is) b m = true :=
  fun h => installedB_append_true tr is b m h hno

theorem installedB_snoc (tr : List Instr) (i : Instr) (b : Nat) (m : ModelSession) :
    installedB (tr ++ [i]) b m = installedStep b m (installedB tr b m) i := by
  rw [installedB_append]
  rfl

theorem installedB_mem_set (tr is : List Instr) (b : Nat) (m : ModelSession)
    (hmem : ∃ i ∈ is, instrInstalls b m i = true)
    (hno : ∀ i ∈ is, instrUnloads b m i = false) :
    installedB (tr ++ is) b m = true := by
  induction is generalizing tr with
  | nil =>
    obtain ⟨i, hi, _⟩ := hmem
    exact absurd hi (by simp)
  | cons i rest ih =>
    have hsplit : tr ++ i :: rest = (tr ++ [i]) ++ rest := by simp
    rw [hsplit]
    by_cases hins : instrInstalls b m i = true
    · apply installedB_append_true
      · rw [installedB_snoc]
        unfold installedStep
        rw [if_pos hins]
      · exact fun j hj => hno j (List.mem_cons_of_mem i hj)
    · obtain ⟨j, hj, hjins⟩ := hmem
      rcases List.mem_cons.mp hj with hji | hji
      · exact absurd (hji ▸ hjins) hins
      · exact ih (tr ++ [i]) ⟨j, hji, hjins⟩ fun j2 hj2 =>
          hno j2 (List.mem_cons_of_mem i hj2)

theorem sharedPrefixFrom_append (tr is1 is2 : List Instr) :
    sharedPrefixFrom tr (is1 ++ is2) =
      (sharedPrefixFrom tr is1 && sharedPrefixFrom (tr ++ is1) is2) := by
  induction is1 generalizing tr with
  | nil => simp [sharedPrefixFrom]
  | cons i rest ih =>
    simp only [List.cons_append, sharedPrefixFrom, List.append_eq]
    rw [ih (tr ++ [i])]
    rw [Bool.and_assoc]
    have hsplit : tr ++ [i] ++ rest = tr ++ i :: rest := by simp
    rw [hsplit]

theorem sharedPrefixFrom_no_prefix_instrs (tr is : List Instr)
    (h : ∀ i ∈ is, isLoadPrefix i = false) :
    sharedPrefixFrom tr is = true := by
  induction is generalizing tr with
  | nil => rfl
  | cons i rest ih =>
    have hi := h i (List.mem_cons_self i rest)
    cases i with
    | loadPrefixModel b t hd => simp [isLoadPrefix] at hi
    | loadModel b m =>
      simp only [sharedPrefixFrom, Bool.true_and]
      exact ih (tr ++ [Instr.loadModel b m])
        fun j hj => h j (List.mem_cons_of_mem _ hj)
    | unloadModel b m =>
      simp only [sharedPrefixFrom, Bool.true_and]
      exact ih (tr ++ [Instr.unloadModel b m])
        fun j hj => h j (List.mem_cons_of_mem _ hj)

theorem sharedPrefixFrom_attach (tr : List Instr) (tps : List (Nat × ℚ))
    (m share : ModelSession)
    (hins : ∀ p ∈ tps, installedB tr p.1 share = true) :
    sharedPrefixFrom tr (tps.map fun p => Instr.loadPrefixModel p.1 m share) = true := by
  induction tps generalizing tr with
  | nil => rfl
  | cons p rest ih =>
    simp only [List.map_cons, sharedPrefixFrom]
    rw [hins p (List.mem_cons_self p rest)]
    simp only [Bool.true_and]
    apply ih
    intro q hq
    apply installedB_append_true
    · exact hins q (List.mem_cons_of_mem p hq)
    · intro i hi
      simp only [List.mem_singleton] at hi
      subst hi
      rfl

theorem sharedPrefixFrom_tails (tr : List Instr) (bid : Nat)
    (headSess : ModelSession) (tails : List ModelSession)
    (h : installedB tr bid headSess = true) :
    sharedPrefixFrom tr
      (tails.map fun t => Instr.loadPrefixModel bid t headSess) = true := by
  induction tails generalizing tr with
  | nil => rfl
  | cons t rest ih =>
    simp only [List.map_cons, sharedPrefixFrom]
    rw [h]
    simp only [Bool.true_and]
    apply ih
    apply installedB_append_true _ _ _ _ h
    intro i hi
    simp only [List.mem_singleton] at hi
    subst hi
    rfl

theorem sharedPrefixFrom_alloc (tr : List Instr) (bid : Nat)
    (headSess : ModelSession) (tails : List ModelSession) :
    sharedPrefixFrom tr (Instr.loadModel bid headSess ::
      tails.map fun t => Instr.loadPrefixModel bid t headSess) = true := by
  simp only [sharedPrefixFrom, Bool.true_and]
  apply sharedPrefixFrom_tails
  rw [installedB_snoc]
  unfold installedStep
  rw [if_pos]
  unfold instrInstalls
  simp

/-! ## Claim C4: association-list and arena lemmas -/

theorem lookupA_append_left {α β : Type} [DecidableEq α] (l1 l2 : List (α × β))
    (k : α) (v : β) (h : lookupA l1 k = some v) :
    lookupA (l1 ++ l2) k = some v := by
  induction l1 with
  | nil => simp [lookupA] at h
  | cons p rest ih =>
    obtain ⟨a, b⟩ := p
    simp only [lookupA, List.cons_append] at h ⊢
    by_cases hak : k = a
    · rw [if_pos hak] at h ⊢
      exact h
    · rw [if_neg hak] at h ⊢
      exact ih h

theorem lookupA_append_right {α β : Type} [DecidableEq α] (l1 l2 : List (α × β))
    (k : α) (h : lookupA l1 k = none) :
    lookupA (l1 ++ l2) k = lookupA l2 k := by
  induction l1 with
  | nil => rfl
  | cons p rest ih =>
    obtain ⟨a, b⟩ := p
    simp only [lookupA, List.cons_append] at h ⊢
    by_cases hak : k = a
    · rw [if_pos hak] at h
      exact absurd h (by simp)
    · rw [if_neg hak] at h ⊢
      exact ih h

theorem lookupA_filter_ne {α β : Type} [DecidableEq α] (l : List (α × β))
    (k k' : α) (h : k' ≠ k) :
    lookupA (l.filter fun p => p.1 != k) k' = lookupA l k' := by
  induction l with
  | nil => rfl
  | cons p rest ih =>
    obtain ⟨a, b⟩ := p
    by_cases hak : a = k
    · subst hak
      rw [List.filter_cons_of_neg (by simp)]
      rw [ih]
      simp only [lookupA]
      rw [if_neg h]
    · rw [List.filter_cons_of_pos (by simpa using hak)]
      simp only [lookupA]
      by_cases hk'a : k' = a
      · rw [if_pos hk'a, if_pos hk'a]
      · rw [if_neg hk'a, if_neg hk'a]
        exact ih

theorem lookupA_filter_self {α β : Type} [DecidableEq α] (l : List (α × β))
    (k : α) : lookupA (l.filter fun p => p.1 != k) k = none := by
  induction l with
  | nil => rfl
  | cons p rest ih =>
    obtain ⟨a, b⟩ := p
    by_cases hak : a = k
    · subst hak
      rw [List.filter_cons_of_neg (by simp)]
      exact ih
    · rw [List.filter_cons_of_pos (by simpa using hak)]
      simp only [lookupA]
      rw [if_neg (fun h => hak h.symm)]
      exact ih

theorem mem_emplaceA {α β : Type} [DecidableEq α] (l : List (α × β)) (k : α)
    (v : β) (p : α × β) (h : p ∈ emplaceA l k v) : p ∈ l ∨ p = (k, v) := by
  unfold emplaceA at h
  split at h
  · exact Or.inl h
  · rcases List.mem_append.mp h with h1 | h1
    · exact Or.inl h1
    · simp only [List.mem_singleton] at h1
      exact Or.inr h1

theorem mem_foldl_emplaceA (assigns : List (Nat × InstanceInfo))
    (acc : List (Nat × ℚ)) (p : Nat × ℚ)
    (h : p ∈ assigns.foldl (fun acc q => emplaceA acc q.1 q.2.throughput) acc) :
    p ∈ acc ∨ ∃ q ∈ assigns, p.1 = q.1 := by
  induction assigns generalizing acc with
  | nil => exact Or.inl h
  | cons q rest ih =>
    simp only [List.foldl_cons] at h
    rcases ih (emplaceA acc q.1 q.2.throughput) h with h1 | h1
    · rcases mem_emplaceA acc q.1 q.2.throughput p h1 with h2 | h2
      · exact Or.inl h2
      · exact Or.inr ⟨q, List.mem_cons_self q rest, by rw [h2]⟩
    · obtain ⟨q2, hq2, hpq2⟩ := h1
      exact Or.inr ⟨q2, List.mem_cons_of_mem q hq2, hpq2⟩

theorem findShareSession_some (st : SchedState) (m : ModelSession)
    (ids : List ModelID) (s : ModelSession) (idx : Nat)
    (h : findShareSession st m ids = some (s, idx)) :
    lookupA st.session_table s = some idx := by
  induction ids with
  | nil => simp [findShareSession] at h
  | cons id rest ih =>
    simp only [findShareSession] at h
    cases hl : lookupA st.session_table
        (modelIDToSession id m.latency_sla m.image_height m.image_width) with
    | none =>
      rw [hl] at h
      exact ih h
    | some i =>
      rw [hl] at h
      injection h with h
      rw [Prod.mk.injEq] at h
      rw [← h.1, hl, h.2]

/-! ## Claim C4: the scheduler invariant -/

/-- The session group stored at an arena index (the record behind the
shared SessionInfoPtr). -/
def groupAt (sessions : List SessionInfo) (idx : Nat) : SessionInfo :=
  (sessions[idx]?).getD default

/-- Invariant tying the session table, the shared session groups and the
instruction trace: every key belongs to its group; every group member is
a key of the same group; and every member of a group is installed (loaded
and not since unloaded) on every backend currently serving the group. -/
structure TInv (table : List (ModelSession × Nat)) (sessions : List SessionInfo)
    (tr : List Instr) : Prop where
  memKey : ∀ k idx, lookupA table k = some idx →
    k ∈ (groupAt sessions idx).model_sessions
  keyOfMem : ∀ k idx, lookupA table k = some idx →
    ∀ m ∈ (groupAt sessions idx).model_sessions, lookupA table m = some idx
  installed : ∀ k idx, lookupA table k = some idx →
    ∀ p ∈ (groupAt sessions idx).backend_throughputs,
    ∀ m ∈ (groupAt sessions idx).model_sessions, installedB tr p.1 m = true

def SInv (st : SchedState) (tr : List Instr) : Prop :=
  TInv st.session_table st.sessions tr

theorem groupAt_some (sessions : List SessionInfo) (idx : Nat) (g : SessionInfo)
    (h : sessions[idx]? = some g) : groupAt sessions idx = g := by
  simp [groupAt, h]

theorem updateSessions_getElem_self (sessions : List SessionInfo) (idx : Nat)
    (f : SessionInfo → SessionInfo) (g : SessionInfo)
    (h : sessions[idx]? = some g) :
    (updateSessions sessions idx f)[idx]? = some (f g) := by
  unfold updateSessions
  rw [h]
  have hlt : idx < sessions.length := by
    rcases List.getElem?_eq_some_iff.mp h with ⟨hl, _⟩
    exact hl
  exact List.getElem?_set_eq_of_lt (f g) hlt

theorem updateSessions_getElem_ne (sessions : List SessionInfo) (idx j : Nat)
    (f : SessionInfo → SessionInfo) (h : idx ≠ j) :
    (updateSessions sessions idx f)[j]? = sessions[j]? := by
  unfold updateSessions
  cases hs : sessions[idx]? with
  | none => rfl
  | some g => exact List.getElem?_set_ne h

theorem groupAt_update_self (sessions : List SessionInfo) (idx : Nat)
    (f : SessionInfo → SessionInfo) (g : SessionInfo)
    (hgs : sessions[idx]? = some g) :
    groupAt (updateSessions sessions idx f) idx = f g := by
  simp [groupAt, updateSessions_getElem_self sessions idx f g hgs]

theorem groupAt_update_ne (sessions : List SessionInfo) (idx i : Nat)
    (f : SessionInfo → SessionInfo) (h : i ≠ idx) :
    groupAt (updateSessions sessions idx f) i = groupAt sessions i := by
  simp [groupAt, updateSessions_getElem_ne sessions idx i f (fun he => h he.symm)]

theorem instrUnloads_false_of_not_unload (b : Nat) (m : ModelSession) (i : Instr)
    (h : isUnload i = false) : instrUnloads b m i = false := by
  cases i with
  | loadModel b2 m2 => rfl
  | loadPrefixModel b2 t hd => rfl
  | unloadModel b2 m2 => simp [isUnload] at h

theorem TInv_extend_no_unload (table : List (ModelSession × Nat))
    (sessions : List SessionInfo) (tr is : List Instr)
    (h : TInv table sessions tr) (hno : ∀ i ∈ is, isUnload i = false) :
    TInv table sessions (tr ++ is) := by
  refine ⟨h.memKey, h.keyOfMem, ?_⟩
  intro k idx hk p hp m hm
  apply installedB_append_true _ _ _ _ (h.installed k idx hk p hp m hm)
  intro i hi
  exact instrUnloads_false_of_not_unload p.1 m i (hno i hi)

theorem SInv_registerFrontend (fid : Nat) (st : SchedState) (tr : List Instr)
    (h : SInv st tr) : SInv (registerFrontendFn fid st) tr := by
  unfold registerFrontendFn
  split
  · exact h
  · exact h

theorem SInv_registerBackend (nid : Nat) (st : SchedState) (tr : List Instr)
    (h : SInv st tr) : SInv (registerBackendFn nid st) tr := by
  unfold registerBackendFn
  split
  · exact h
  · exact h

/-- Core of the shrink unload (lines 773-777): dropping a backend from a
group's throughputs while unloading the group key from it preserves the
invariant. -/
theorem TInv_shrinkCore (table : List (ModelSession × Nat))
    (sessions : List SessionInfo) (tr : List Instr) (k : ModelSession)
    (bid : Nat) (idx : Nat) (g : SessionInfo)
    (hk : lookupA table k = some idx) (hgs : sessions[idx]? = some g)
    (h : TInv table sessions tr) :
    TInv table
      (updateSessions sessions idx fun s =>
        { s with backend_throughputs :=
            s.backend_throughputs.filter fun p => p.1 != bid })
      (tr ++ [Instr.unloadModel bid k]) := by
  have hgid : groupAt sessions idx = g := groupAt_some sessions idx g hgs
  refine ⟨?_, ?_, ?_⟩
  · intro k2 i hk2
    by_cases hi : i = idx
    · subst hi
      rw [groupAt_update_self sessions i _ g hgs]
      have hmk := h.memKey k2 i hk2
      rw [hgid] at hmk
      exact hmk
    · rw [groupAt_update_ne sessions idx i _ hi]
      exact h.memKey k2 i hk2
  · intro k2 i hk2 m hm
    by_cases hi : i = idx
    · subst hi
      rw [groupAt_update_self sessions i _ g hgs] at hm
      have hm2 : m ∈ (groupAt sessions i).model_sessions := by
        rw [hgid]
        exact hm
      exact h.keyOfMem k2 i hk2 m hm2
    · rw [groupAt_update_ne sessions idx i _ hi] at hm
      exact h.keyOfMem k2 i hk2 m hm
  · intro k2 i hk2 p hp m hm
    by_cases hi : i = idx
    · subst hi
      rw [groupAt_update_self sessions i _ g hgs] at hp hm
      have hpf := List.mem_filter.mp hp
      have hpg : p ∈ (groupAt sessions i).backend_throughputs := by
        rw [hgid]
        exact hpf.1
      have hmg : m ∈ (groupAt sessions i).model_sessions := by
        rw [hgid]
        exact hm
      apply installedB_append_true _ _ _ _ (h.installed k2 i hk2 p hpg m hmg)
      intro j hj
      simp only [List.mem_singleton] at hj
      subst hj
      simp only [instrUnloads]
      have hne : (bid == p.1) = false := by
        have hb := hpf.2
        simp only [bne_iff_ne, ne_eq] at hb
        simp only [beq_eq_false_iff_ne, ne_eq]
        exact fun he => hb he.symm
      rw [hne]
      rfl
    · rw [groupAt_update_ne sessions idx i _ hi] at hp hm
      apply installedB_append_true _ _ _ _ (h.installed k2 i hk2 p hp m hm)
      intro j hj
      simp only [List.mem_singleton] at hj
      subst hj
      simp only [instrUnloads]
      have hmk : (k == m) = false := by
        simp only [beq_eq_false_iff_ne, ne_eq]
        intro he
        subst he
        have hsm := h.keyOfMem k2 i hk2 k hm
        rw [hk] at hsm
        injection hsm with hsm
        exact hi hsm.symm
      rw [hmk]
      simp

theorem SInv_shrinkUnload (k : ModelSession) (bid : Nat) (st : SchedState)
    (tr : List Instr) (h : SInv st tr) :
    SInv (shrinkUnloadFn k bid st).1 (tr ++ (shrinkUnloadFn k bid st).2) := by
  cases hk : lookupA st.session_table k with
  | none =>
    simp only [shrinkUnloadFn, hk]
    simpa using h
  | some idx =>
    by_cases hany : ((st.sessions[idx]?).getD default).backend_throughputs.any
        (fun p => p.1 == bid) = true
    · obtain ⟨g, hgs⟩ : ∃ g, st.sessions[idx]? = some g := by
        cases hs : st.sessions[idx]? with
        | none =>
          rw [hs] at hany
          simp only [Option.getD_none] at hany
          have hdtp : (default : SessionInfo).backend_throughputs = [] := rfl
          rw [hdtp] at hany
          simp at hany
        | some g2 => exact ⟨g2, rfl⟩
      simp only [shrinkUnloadFn, hk]
      rw [if_pos hany]
      exact TInv_shrinkCore st.session_table st.sessions tr k bid idx g hk hgs h
    · simp only [shrinkUnloadFn, hk]
      rw [if_neg hany]
      simpa using h

/-- Core of the RemoveFrontend unload branch (lines 551-567): erasing a
session's table entry, removing it from its group and unloading it from
every backend serving the group preserves the invariant. -/
theorem TInv_removeCore (table : List (ModelSession × Nat))
    (sessions : List SessionInfo) (tr : List Instr) (k : ModelSession)
    (idx : Nat) (g : SessionInfo)
    (hk : lookupA table k = some idx) (hgs : sessions[idx]? = some g)
    (h : TInv table sessions tr) :
    TInv (table.filter fun p => p.1 != k)
      (updateSessions sessions idx fun s =>
        { s with model_sessions := removeSessionFromGroup s.model_sessions k })
      (tr ++ g.backend_throughputs.map fun p => Instr.unloadModel p.1 k) := by
  have hgid : groupAt sessions idx = g := groupAt_some sessions idx g hgs
  have hneK : ∀ k2 i, lookupA (table.filter fun p => p.1 != k) k2 = some i →
      k2 ≠ k := by
    intro k2 i hk2 he
    subst he
    rw [lookupA_filter_self] at hk2
    exact absurd hk2 (by simp)
  have hold : ∀ k2 i, lookupA (table.filter fun p => p.1 != k) k2 = some i →
      lookupA table k2 = some i := by
    intro k2 i hk2
    rw [lookupA_filter_ne table k k2 (hneK k2 i hk2)] at hk2
    exact hk2
  have hmemNe : ∀ i m, lookupA table m = some i → i ≠ idx → m ≠ k := by
    intro i m hmt hi he
    subst he
    rw [hk] at hmt
    injection hmt with hmt
    exact hi hmt.symm
  refine ⟨?_, ?_, ?_⟩
  · intro k2 i hk2
    have h2 := h.memKey k2 i (hold k2 i hk2)
    by_cases hi : i = idx
    · subst hi
      rw [groupAt_update_self sessions i _ g hgs]
      show k2 ∈ removeSessionFromGroup g.model_sessions k
      apply List.mem_filter.mpr
      refine ⟨?_, ?_⟩
      · rw [hgid] at h2
        exact h2
      · simpa using hneK k2 i hk2
    · rw [groupAt_update_ne sessions idx i _ hi]
      exact h2
  · intro k2 i hk2 m hm
    have holdk2 := hold k2 i hk2
    by_cases hi : i = idx
    · subst hi
      rw [groupAt_update_self sessions i _ g hgs] at hm
      have hmf := List.mem_filter.mp hm
      have hmne : m ≠ k := by simpa using hmf.2
      have hmt : lookupA table m = some i := by
        apply h.keyOfMem k2 i holdk2 m
        rw [hgid]
        exact hmf.1
      rw [lookupA_filter_ne table k m hmne]
      exact hmt
    · rw [groupAt_update_ne sessions idx i _ hi] at hm
      have hmt := h.keyOfMem k2 i holdk2 m hm
      rw [lookupA_filter_ne table k m (hmemNe i m hmt hi)]
      exact hmt
  · intro k2 i hk2 p hp m hm
    have holdk2 := hold k2 i hk2
    have hext : ∀ (m2 : ModelSession), m2 ≠ k →
        ∀ j ∈ g.backend_throughputs.map fun q => Instr.unloadModel q.1 k,
        instrUnloads p.1 m2 j = false := by
      intro m2 hm2 j hj
      simp only [List.mem_map] at hj
      obtain ⟨q, hq, hqj⟩ := hj
      rw [← hqj]
      simp only [instrUnloads]
      have hkm : (k == m2) = false := by
        simp only [beq_eq_false_iff_ne, ne_eq]
        exact fun he => hm2 he.symm
      rw [hkm]
      simp
    by_cases hi : i = idx
    · subst hi
      rw [groupAt_update_self sessions i _ g hgs] at hp hm
      have hmf := List.mem_filter.mp hm
      have hmne : m ≠ k := by simpa using hmf.2
      have hpg : p ∈ (groupAt sessions i).backend_throughputs := by
        rw [hgid]
        exact hp
      have hmg : m ∈ (groupAt sessions i).model_sessions := by
        rw [hgid]
        exact hmf.1
      exact installedB_append_true _ _ _ _ (h.installed k2 i holdk2 p hpg m hmg)
        (hext m hmne)
    · rw [groupAt_update_ne sessions idx i _ hi] at hp hm
      have hmt := h.keyOfMem k2 i holdk2 m hm
      exact installedB_append_true _ _ _ _ (h.installed k2 i holdk2 p hp m hm)
        (hext m (hmemNe i m hmt hi))

/-- One session of RemoveFrontend (lines 551-567): the invariant is
preserved and every emitted instruction respects the shared-prefix
discipline (unloads trivially do). -/
theorem SInv_removeFrontendStepOne (fid : Nat) (st : SchedState)
    (tr : List Instr) (k : ModelSession) (h : SInv st tr) :
    SInv (removeFrontendStepOne fid st k).1
      (tr ++ (removeFrontendStepOne fid st k).2) ∧
    sharedPrefixFrom tr (removeFrontendStepOne fid st k).2 = true := by
  have hres : ∀ subs : List (ModelSession × List Nat),
      SInv { st with session_subscribers := subs } (tr ++ []) := by
    intro subs
    show TInv st.session_table st.sessions (tr ++ [])
    rw [List.append_nil]
    exact h
  simp only [removeFrontendStepOne]
  split
  · split
    · exact ⟨hres _, rfl⟩
    · rename_i idx heq
      split

      · exact ⟨hres _, rfl⟩
      · cases hgs : st.sessions[idx]? with
        | none =>
          exfalso
          have hmk := h.memKey k idx heq
          simp only [groupAt, hgs, Option.getD_none] at hmk
          have hdm : (default : SessionInfo).model_sessions = [] := rfl
          rw [hdm] at hmk
          simp at hmk
        | some g =>
          refine ⟨?_, ?_⟩
          · show TInv (st.session_table.filter fun p => p.1 != k)
              (updateSessions st.sessions idx fun s =>
                { s with model_sessions := removeSessionFromGroup s.model_sessions k })
              (tr ++ g.backend_throughputs.map fun p => Instr.unloadModel p.1 k)
            exact TInv_removeCore st.session_table st.sessions tr k idx g heq hgs h
          · apply sharedPrefixFrom_no_prefix_instrs
            intro i hi
            simp only [Option.getD_some, List.mem_map] at hi
            obtain ⟨q, hq, hqi⟩ := hi
            rw [← hqi]
            rfl
  · exact ⟨hres _, rfl⟩

/-- A fold of state-and-trace steps preserves the invariant and the
shared-prefix discipline when each individual step does. -/
theorem SInv_foldSteps {α : Type} (step : SchedState → α → SchedState × List Instr)
    (hstep : ∀ st tr a, SInv st tr →
      SInv (step st a).1 (tr ++ (step st a).2) ∧
      sharedPrefixFrom tr (step st a).2 = true)
    (xs : List α) (tr : List Instr) :
    ∀ st acc, SInv st (tr ++ acc) → sharedPrefixFrom tr acc = true →
      SInv (xs.foldl (fun p a => ((step p.1 a).1, p.2 ++ (step p.1 a).2)) (st, acc)).1
        (tr ++ (xs.foldl (fun p a => ((step p.1 a).1, p.2 ++ (step p.1 a).2)) (st, acc)).2) ∧
      sharedPrefixFrom tr
        (xs.foldl (fun p a => ((step p.1 a).1, p.2 ++ (step p.1 a).2)) (st, acc)).2 = true := by
  induction xs with
  | nil =>
    intro st acc h1 h2
    exact ⟨h1, h2⟩
  | cons a rest ih =>
    intro st acc h1 h2
    simp only [List.foldl_cons]
    obtain ⟨h3, h4⟩ := hstep st (tr ++ acc) a h1
    apply ih (step st a).1 (acc ++ (step st a).2)
    · rw [← List.append_assoc]
      exact h3
    · rw [sharedPrefixFrom_append, h2, h4]
      rfl

/-- RemoveFrontend (lines 548-573): the whole per-frontend cleanup
preserves the invariant and the shared-prefix discipline. -/
theorem SInv_removeFrontend (fid : Nat) (st : SchedState) (tr : List Instr)
    (h : SInv st tr) :
    SInv (removeFrontendFn fid st).1 (tr ++ (removeFrontendFn fid st).2) ∧
    sharedPrefixFrom tr (removeFrontendFn fid st).2 = true := by
  have h0 : SInv { st with frontends := st.frontends.filter fun p => p.1 != fid }
      (tr ++ []) := by
    show TInv st.session_table st.sessions (tr ++ [])
    rw [List.append_nil]
    exact h
  exact SInv_foldSteps (fun s kk => removeFrontendStepOne fid s kk)
    (fun s tr2 a hs => SInv_removeFrontendStepOne fid s tr2 a hs)
    ((lookupA st.frontends fid).getD []) tr _ [] h0 rfl

/-- One iteration of the per-session allocation loop (lines 878-890):
loading the group head and every sibling on the chosen backend and
recording the backend's throughput preserves the invariant. -/
theorem TInv_allocIter (table : List (ModelSession × Nat))
    (sessions : List SessionInfo) (tr : List Instr) (idx : Nat) (bid : Nat)
    (tp0 : ℚ) (h : TInv table sessions tr) :
    TInv table
      (updateSessions sessions idx fun s =>
        { s with backend_throughputs := emplaceA s.backend_throughputs bid tp0 })
      (tr ++ (Instr.loadModel bid ((groupAt sessions idx).model_sessions.headD default) ::
        ((groupAt sessions idx).model_sessions.drop 1).map fun t =>
          Instr.loadPrefixModel bid t
            ((groupAt sessions idx).model_sessions.headD default))) := by
  have hnoU : ∀ j ∈ Instr.loadModel bid ((groupAt sessions idx).model_sessions.headD default) ::
      ((groupAt sessions idx).model_sessions.drop 1).map fun t =>
        Instr.loadPrefixModel bid t ((groupAt sessions idx).model_sessions.headD default),
      isUnload j = false := by
    intro j hj
    rcases List.mem_cons.mp hj with hj1 | hj1
    · rw [hj1]
      rfl
    · simp only [List.mem_map] at hj1
      obtain ⟨t, _, hjt⟩ := hj1
      rw [← hjt]
      rfl
  have hnoU2 : ∀ (b : Nat) (m2 : ModelSession),
      ∀ j ∈ Instr.loadModel bid ((groupAt sessions idx).model_sessions.headD default) ::
        ((groupAt sessions idx).model_sessions.drop 1).map fun t =>
          Instr.loadPrefixModel bid t ((groupAt sessions idx).model_sessions.headD default),
      instrUnloads b m2 j = false :=
    fun b m2 j hj => instrUnloads_false_of_not_unload b m2 j (hnoU j hj)
  cases hgs : sessions[idx]? with
  | none =>
    have heq : updateSessions sessions idx (fun s =>
        { s with backend_throughputs := emplaceA s.backend_throughputs bid tp0 }) =
        sessions := by
      unfold updateSessions
      rw [hgs]
    rw [heq]
    exact TInv_extend_no_unload table sessions tr _ h hnoU
  | some g =>
    have hgid : groupAt sessions idx = g := groupAt_some sessions idx g hgs
    refine ⟨?_, ?_, ?_⟩
    · intro k2 i hk2
      have h2 := h.memKey k2 i hk2
      by_cases hi : i = idx
      · subst hi
        rw [groupAt_update_self sessions i _ g hgs]
        show k2 ∈ g.model_sessions
        rw [hgid] at h2
        exact h2
      · rw [groupAt_update_ne sessions idx i _ hi]
        exact h2
    · intro k2 i hk2 m hm
      by_cases hi : i = idx
      · subst hi
        rw [groupAt_update_self sessions i _ g hgs] at hm
        apply h.keyOfMem k2 i hk2 m
        rw [hgid]
        exact hm
      · rw [groupAt_update_ne sessions idx i _ hi] at hm
        exact h.keyOfMem k2 i hk2 m hm
    · intro k2 i hk2 p hp m hm
      by_cases hi : i = idx
      · subst hi
        rw [groupAt_update_self sessions i _ g hgs] at hp hm
        have hmg : m ∈ (groupAt sessions i).model_sessions := by
          rw [hgid]
          exact hm
        have hp2 : p ∈ emplaceA g.backend_throughputs bid tp0 := hp
        rcases mem_emplaceA g.backend_throughputs bid tp0 p hp2 with hpo | hpn
        · have hpg : p ∈ (groupAt sessions i).backend_throughputs := by
            rw [hgid]
            exact hpo
          exact installedB_append_true _ _ _ _ (h.installed k2 i hk2 p hpg m hmg)
            (hnoU2 p.1 m)
        · have hp1 : p.1 = bid := by rw [hpn]
          rw [hp1]
          apply installedB_mem_set
          · have hmg2 : m ∈ g.model_sessions := hm
            rw [hgid]
            cases hms : g.model_sessions with
            | nil =>
              rw [hms] at hmg2
              exact absurd hmg2 (by simp)
            | cons m0 rest =>
              rw [hms] at hmg2
              rcases List.mem_cons.mp hmg2 with hm1 | hm1
              · refine ⟨Instr.loadModel bid ((m0 :: rest).headD default), List.mem_cons_self _ _, ?_⟩
                simp only [List.headD_cons, instrInstalls, hm1]
                simp
              · refine ⟨Instr.loadPrefixModel bid m ((m0 :: rest).headD default), ?_, ?_⟩
                · apply List.mem_cons_of_mem
                  apply List.mem_map.mpr
                  refine ⟨m, ?_, rfl⟩
                  simpa using hm1
                · simp [instrInstalls]
          · exact hnoU2 bid m
      · rw [groupAt_update_ne sessions idx i _ hi] at hp hm
        exact installedB_append_true _ _ _ _ (h.installed k2 i hk2 p hp m hm)
          (hnoU2 p.1 m)

/-- The fueled per-session allocation loop (lines 876-897) preserves the
invariant, and its whole instruction block respects the shared-prefix
discipline: each iteration's head LoadModel immediately precedes the
sibling LoadPrefixModel instructions that cite it. -/
theorem SInv_allocSessionLoop (env : Env) (idx : Nat) (fuel : Nat) :
    ∀ st rate tr, SInv st tr →
      SInv (allocSessionLoop env idx fuel st rate).1
        (tr ++ (allocSessionLoop env idx fuel st rate).2.1) ∧
      sharedPrefixFrom tr (allocSessionLoop env idx fuel st rate).2.1 = true := by
  induction fuel with
  | zero =>
    intro st rate tr h
    refine ⟨?_, rfl⟩
    show TInv st.session_table st.sessions (tr ++ [])
    rw [List.append_nil]
    exact h
  | succ fuel ih =>
    intro st rate tr h
    by_cases hr : rate ≤ 0
    · simp only [allocSessionLoop]
      rw [if_pos hr]
      refine ⟨?_, rfl⟩
      show TInv st.session_table st.sessions (tr ++ [])
      rw [List.append_nil]
      exact h
    · simp only [allocSessionLoop]
      rw [if_neg hr]
      split
      · refine ⟨?_, rfl⟩
        show TInv st.session_table st.sessions (tr ++ [])
        rw [List.append_nil]
        exact h
      · rename_i bid inst hfb
        have hst' := TInv_allocIter st.session_table st.sessions tr idx bid
          inst.throughput h
        obtain ⟨h5, h6⟩ := ih { st with
            backends := applyInstrs
              (Instr.loadModel bid (((st.sessions[idx]?).getD default).model_sessions.headD default) ::
                ((((st.sessions[idx]?).getD default).model_sessions.drop 1).map fun t =>
                  Instr.loadPrefixModel bid t
                    (((st.sessions[idx]?).getD default).model_sessions.headD default)))
              st.backends
            sessions := updateSessions st.sessions idx fun s =>
              { s with backend_throughputs := emplaceA s.backend_throughputs bid inst.throughput } }
          (rate - inst.throughput)
          (tr ++ (Instr.loadModel bid (((st.sessions[idx]?).getD default).model_sessions.headD default) ::
            ((((st.sessions[idx]?).getD default).model_sessions.drop 1).map fun t =>
              Instr.loadPrefixModel bid t
                (((st.sessions[idx]?).getD default).model_sessions.headD default))))
          hst'
        refine ⟨?_, ?_⟩
        · rw [← List.append_assoc]
          exact h5
        · rw [sharedPrefixFrom_append, h6, sharedPrefixFrom_alloc]
          rfl

/-- Update of the residual after one session's allocation (line 898)
preserves the invariant: only unassigned_workload changes. -/
theorem TInv_update_unassigned (table : List (ModelSession × Nat))
    (sessions : List SessionInfo) (tr : List Instr) (idx : Nat) (r : ℚ)
    (h : TInv table sessions tr) :
    TInv table (updateSessions sessions idx fun s =>
      { s with unassigned_workload := qmax 0 r }) tr := by
  cases hgs : sessions[idx]? with
  | none =>
    have heq : updateSessions sessions idx (fun s =>
        { s with unassigned_workload := qmax 0 r }) = sessions := by
      unfold updateSessions
      rw [hgs]
    rw [heq]
    exact h
  | some g =>
    have hgid : groupAt sessions idx = g := groupAt_some sessions idx g hgs
    refine ⟨?_, ?_, ?_⟩
    · intro k2 i hk2
      have h2 := h.memKey k2 i hk2
      by_cases hi : i = idx
      · subst hi
        rw [groupAt_update_self sessions i _ g hgs]
        show k2 ∈ g.model_sessions
        rw [hgid] at h2
        exact h2
      · rw [groupAt_update_ne sessions idx i _ hi]
        exact h2
    · intro k2 i hk2 m hm
      by_cases hi : i = idx
      · subst hi
        rw [groupAt_update_self sessions i _ g hgs] at hm
        apply h.keyOfMem k2 i hk2 m
        rw [hgid]
        exact hm
      · rw [groupAt_update_ne sessions idx i _ hi] at hm
        exact h.keyOfMem k2 i hk2 m hm
    · intro k2 i hk2 p hp m hm
      by_cases hi : i = idx
      · subst hi
        rw [groupAt_update_self sessions i _ g hgs] at hp hm
        have hpg : p ∈ (groupAt sessions i).backend_throughputs := by
          rw [hgid]
          exact hp
        have hmg : m ∈ (groupAt sessions i).model_sessions := by
          rw [hgid]
          exact hm
        exact h.installed k2 i hk2 p hpg m hmg
      · rw [groupAt_update_ne sessions idx i _ hi] at hp hm
        exact h.installed k2 i hk2 p hp m hm

/-- One unassigned session (lines 871-899): allocation loop plus residual
store preserves the invariant and the shared-prefix discipline. -/
theorem SInv_allocOneSession (env : Env) (fuel : Nat) (idx : Nat)
    (st : SchedState) (tr : List Instr) (h : SInv st tr) :
    SInv (allocOneSession env fuel idx st).1
      (tr ++ (allocOneSession env fuel idx st).2) ∧
    sharedPrefixFrom tr (allocOneSession env fuel idx st).2 = true := by
  obtain ⟨h1, h2⟩ := SInv_allocSessionLoop env idx fuel st
    (((st.sessions[idx]?).getD default).unassigned_workload) tr h
  refine ⟨?_, h2⟩
  exact TInv_update_unassigned _ _ _ idx _ h1

/-- AllocateUnassignedWorkloads (lines 848-900) preserves the invariant
and the shared-prefix discipline. -/
theorem SInv_allocateUnassigned (env : Env) (fuel : Nat) (st : SchedState)
    (tr : List Instr) (h : SInv st tr) :
    SInv (AllocateUnassignedWorkloads env fuel st).1
      (tr ++ (AllocateUnassignedWorkloads env fuel st).2) ∧
    sharedPrefixFrom tr (AllocateUnassignedWorkloads env fuel st).2 = true := by
  have h0 : SInv st (tr ++ []) := by
    show TInv st.session_table st.sessions (tr ++ [])
    rw [List.append_nil]
    exact h
  exact SInv_foldSteps (fun s i => allocOneSession env fuel i s)
    (fun s tr2 a hs => SInv_allocOneSession env fuel a s tr2 hs)
    (sortByKeyDesc (fun idx => ((st.sessions[idx]?).getD default).unassigned_workload)
      (collectUnassigned st)) tr st [] h0 rfl

theorem lookupA_singleton {α β : Type} [DecidableEq α] (a k : α) (b v : β)
    (h : lookupA [(a, b)] k = some v) : k = a ∧ v = b := by
  simp only [lookupA] at h
  by_cases hk : k = a
  · rw [if_pos hk] at h
    injection h with h
    exact ⟨hk, h.symm⟩
  · rw [if_neg hk] at h
    exact absurd h (by simp)

theorem lookupA_append_cases {α β : Type} [DecidableEq α] (l1 l2 : List (α × β))
    (k : α) (v : β) (h : lookupA (l1 ++ l2) k = some v) :
    lookupA l1 k = some v ∨ (lookupA l1 k = none ∧ lookupA l2 k = some v) := by
  cases h1 : lookupA l1 k with
  | none =>
    right
    rw [lookupA_append_right l1 l2 k h1] at h
    exact ⟨rfl, h⟩
  | some v0 =>
    left
    have h2 := lookupA_append_left l1 l2 k v0 h1
    rw [h2] at h
    exact h

theorem groupAt_append_lt (sessions : List SessionInfo) (x : SessionInfo)
    (i : Nat) (hi : i < sessions.length) :
    groupAt (sessions ++ [x]) i = groupAt sessions i := by
  simp [groupAt, List.getElem?_append_left hi]

theorem groupAt_concat_self (sessions : List SessionInfo) (x : SessionInfo) :
    groupAt (sessions ++ [x]) sessions.length = x := by
  simp [groupAt, List.getElem?_concat_length]

/-- Any index bound in the session table points into the arena: its group
would otherwise be the default record with an empty member list,
contradicting memKey. -/
theorem TInv_lookup_lt (table : List (ModelSession × Nat))
    (sessions : List SessionInfo) (tr : List Instr) (h : TInv table sessions tr)
    (k : ModelSession) (i : Nat) (hk : lookupA table k = some i) :
    i < sessions.length := by
  have hmk := h.memKey k i hk
  cases hgs : sessions[i]? with
  | none =>
    simp only [groupAt, hgs, Option.getD_none] at hmk
    have hdm : (default : SessionInfo).model_sessions = [] := rfl
    rw [hdm] at hmk
    exact absurd hmk (by simp)
  | some g =>
    rcases List.getElem?_eq_some_iff.mp hgs with ⟨hl, _⟩
    exact hl

/-- Core of the prefix-attach path of LoadModel (lines 162-206): a new
session joining an existing share group - with a LoadPrefixModel issued
to every backend serving the group - preserves the invariant. -/
theorem TInv_attachCore (table : List (ModelSession × Nat))
    (sessions : List SessionInfo) (tr : List Instr) (m share : ModelSession)
    (idx : Nat)
    (hshare : lookupA table share = some idx)
    (hmnone : lookupA table m = none)
    (h : TInv table sessions tr) :
    TInv (table ++ [(m, idx)])
      (updateSessions sessions idx fun s =>
        { s with model_sessions := s.model_sessions ++ [m] })
      (tr ++ (((sessions[idx]?).map SessionInfo.backend_throughputs).getD []).map
        fun p => Instr.loadPrefixModel p.1 m share) := by
  have hlt := TInv_lookup_lt table sessions tr h share idx hshare
  obtain ⟨g, hgs⟩ : ∃ g, sessions[idx]? = some g := by
    rcases hx : sessions[idx]? with _ | g
    · rw [List.getElem?_eq_none_iff] at hx
      omega
    · exact ⟨g, rfl⟩
  have hgid : groupAt sessions idx = g := groupAt_some sessions idx g hgs
  rw [hgs]
  simp only [Option.map_some', Option.getD_some]
  have hnoU2 : ∀ (b : Nat) (m2 : ModelSession),
      ∀ j ∈ g.backend_throughputs.map (fun p => Instr.loadPrefixModel p.1 m share),
      instrUnloads b m2 j = false := by
    intro b m2 j hj
    simp only [List.mem_map] at hj
    obtain ⟨q, _, hqj⟩ := hj
    rw [← hqj]
    rfl
  have holdTab : ∀ k2 i, lookupA (table ++ [(m, idx)]) k2 = some i →
      lookupA table k2 = some i ∨ (k2 = m ∧ i = idx) := by
    intro k2 i hk2
    rcases lookupA_append_cases table [(m, idx)] k2 i hk2 with h1 | ⟨h1, h2⟩
    · exact Or.inl h1
    · obtain ⟨he1, he2⟩ := lookupA_singleton m k2 idx i h2
      exact Or.inr ⟨he1, he2⟩
  refine ⟨?_, ?_, ?_⟩
  · intro k2 i hk2
    rcases holdTab k2 i hk2 with h1 | ⟨he1, he2⟩
    · have h2 := h.memKey k2 i h1
      by_cases hi : i = idx
      · subst hi
        rw [groupAt_update_self sessions i _ g hgs]
        show k2 ∈ g.model_sessions ++ [m]
        apply List.mem_append_left
        rw [hgid] at h2
        exact h2
      · rw [groupAt_update_ne sessions idx i _ hi]
        exact h2
    · subst he1
      subst he2
      rw [groupAt_update_self sessions i _ g hgs]
      show k2 ∈ g.model_sessions ++ [k2]
      exact List.mem_append_right _ (by simp)
  · intro k2 i hk2 m2 hm2
    by_cases hi : i = idx
    · subst hi
      rw [groupAt_update_self sessions i _ g hgs] at hm2
      have hm2' : m2 ∈ g.model_sessions ++ [m] := hm2
      rcases List.mem_append.mp hm2' with hmo | hmn

      · have hmt : lookupA table m2 = some i := by
          apply h.keyOfMem share i hshare m2
          rw [hgid]
          exact hmo
        exact lookupA_append_left table [(m, i)] m2 i hmt
      · simp only [List.mem_singleton] at hmn
        subst hmn
        rw [lookupA_append_right table _ m2 hmnone]
        simp [lookupA]
    · rw [groupAt_update_ne sessions idx i _ hi] at hm2
      rcases holdTab k2 i hk2 with h1 | ⟨he1, he2⟩
      · have hmt := h.keyOfMem k2 i h1 m2 hm2
        exact lookupA_append_left table [(m, idx)] m2 i hmt
      · exact absurd he2 hi
  · intro k2 i hk2 p hp m2 hm2
    by_cases hi : i = idx
    · subst hi
      rw [groupAt_update_self sessions i _ g hgs] at hp hm2
      have hp' : p ∈ g.backend_throughputs := hp
      have hm2' : m2 ∈ g.model_sessions ++ [m] := hm2
      rcases List.mem_append.mp hm2' with hmo | hmn
      · have hpg : p ∈ (groupAt sessions i).backend_throughputs := by
          rw [hgid]
          exact hp'
        have hmg : m2 ∈ (groupAt sessions i).model_sessions := by
          rw [hgid]
          exact hmo
        exact installedB_append_true _ _ _ _ (h.installed share i hshare p hpg m2 hmg)
          (hnoU2 p.1 m2)
      · simp only [List.mem_singleton] at hmn
        subst hmn
        apply installedB_mem_set
        · refine ⟨Instr.loadPrefixModel p.1 m2 share, List.mem_map.mpr ⟨p, hp', ?_⟩, ?_⟩
          · rfl
          · simp [instrInstalls]
        · exact hnoU2 p.1 m2
    · rw [groupAt_update_ne sessions idx i _ hi] at hp hm2
      rcases holdTab k2 i hk2 with h1 | ⟨he1, he2⟩
      · exact installedB_append_true _ _ _ _ (h.installed k2 i h1 p hp m2 hm2)
          (hnoU2 p.1 m2)
      · exact absurd he2 hi

/-- Core of the fresh-allocation path of LoadModel (lines 208-253): a new
singleton group appended to the arena, with a LoadModel issued to every
assigned backend, preserves the invariant. -/
theorem TInv_freshCore (table : List (ModelSession × Nat))
    (sessions : List SessionInfo) (tr : List Instr) (m : ModelSession)
    (assigns : List (Nat × InstanceInfo))
    (hmnone : lookupA table m = none)
    (h : TInv table sessions tr) :
    TInv (table ++ [(m, sessions.length)])
      (sessions ++ [{ model_sessions := [m]
                      backend_throughputs :=
                        assigns.foldl (fun acc p => emplaceA acc p.1 p.2.throughput) []
                      has_static_workload := false
                      unassigned_workload := 0
                      rps_history := [] }])
      (tr ++ assigns.map fun p => Instr.loadModel p.1 m) := by
  have hnoU2 : ∀ (b : Nat) (m2 : ModelSession),
      ∀ j ∈ assigns.map (fun p => Instr.loadModel p.1 m),
      instrUnloads b m2 j = false := by
    intro b m2 j hj
    simp only [List.mem_map] at hj
    obtain ⟨q, _, hqj⟩ := hj
    rw [← hqj]
    rfl
  have hrange : ∀ k2 i, lookupA table k2 = some i → i < sessions.length :=
    fun k2 i hk2 => TInv_lookup_lt table sessions tr h k2 i hk2
  have holdTab : ∀ k2 i, lookupA (table ++ [(m, sessions.length)]) k2 = some i →
      lookupA table k2 = some i ∨ (k2 = m ∧ i = sessions.length) := by
    intro k2 i hk2
    rcases lookupA_append_cases table [(m, sessions.length)] k2 i hk2 with h1 | ⟨h1, h2⟩
    · exact Or.inl h1
    · obtain ⟨he1, he2⟩ := lookupA_singleton m k2 sessions.length i h2
      exact Or.inr ⟨he1, he2⟩
  refine ⟨?_, ?_, ?_⟩
  · intro k2 i hk2
    rcases holdTab k2 i hk2 with h1 | ⟨he1, he2⟩
    · rw [groupAt_append_lt sessions _ i (hrange k2 i h1)]
      exact h.memKey k2 i h1
    · subst he1
      subst he2
      rw [groupAt_concat_self]
      show k2 ∈ [k2]
      simp
  · intro k2 i hk2 m2 hm2
    rcases holdTab k2 i hk2 with h1 | ⟨he1, he2⟩
    · have hi := hrange k2 i h1
      rw [groupAt_append_lt sessions _ i hi] at hm2
      exact lookupA_append_left table _ m2 i (h.keyOfMem k2 i h1 m2 hm2)
    · subst he1
      subst he2
      rw [groupAt_concat_self] at hm2
      have hm2' : m2 ∈ [k2] := hm2
      simp only [List.mem_singleton] at hm2'
      subst hm2'
      rw [lookupA_append_right table _ m2 hmnone]
      simp [lookupA]
  · intro k2 i hk2 p hp m2 hm2
    rcases holdTab k2 i hk2 with h1 | ⟨he1, he2⟩
    · have hi := hrange k2 i h1
      rw [groupAt_append_lt sessions _ i hi] at hp hm2
      exact installedB_append_true _ _ _ _ (h.installed k2 i h1 p hp m2 hm2)
        (hnoU2 p.1 m2)
    · subst he1
      subst he2
      rw [groupAt_concat_self] at hp hm2
      have hp' : p ∈ assigns.foldl (fun acc q => emplaceA acc q.1 q.2.throughput) [] := hp
      have hm2' : m2 ∈ [k2] := hm2
      simp only [List.mem_singleton] at hm2'
      subst hm2'
      rcases mem_foldl_emplaceA assigns [] p hp' with hin | ⟨q, hq, hpq⟩
      · exact absurd hin (by simp)
      · apply installedB_mem_set
        · refine ⟨Instr.loadModel q.1 m2, List.mem_map.mpr ⟨q, hq, rfl⟩, ?_⟩
          simp [instrInstalls, hpq]
        · exact hnoU2 p.1 m2

/-- The LoadModel handler (lines 122-253): every reply preserves the
invariant, and the emitted instruction block respects the shared-prefix
discipline relative to the trace so far. -/
theorem SInv_loadModel (env : Env) (fuel : Nat) (req : LoadModelRequest)
    (st : SchedState) (tr : List Instr) (r : LoadModelReply) (st2 : SchedState)
    (is : List Instr)
    (hres : loadModelHandler env fuel req st = LoadModelResult.reply r st2 is)
    (h : SInv st tr) :
    SInv st2 (tr ++ is) ∧ sharedPrefixFrom tr is = true := by
  have hkeep : ∀ (st3 : SchedState), st3.session_table = st.session_table →
      st3.sessions = st.sessions →
      SInv st3 (tr ++ []) ∧ sharedPrefixFrom tr [] = true := by
    intro st3 h1 h2
    refine ⟨?_, rfl⟩
    show TInv st3.session_table st3.sessions (tr ++ [])
    rw [h1, h2, List.append_nil]
    exact h
  simp only [loadModelHandler] at hres
  split at hres
  · injection hres with h1 h2 h3
    subst h2
    subst h3
    exact hkeep st rfl rfl
  · rename_i info hinfo
    split at hres
    · injection hres with h1 h2 h3
      subst h2
      subst h3
      exact hkeep st rfl rfl
    · rename_i fsubs hfront
      split at hres
      · injection hres with h1 h2 h3
        subst h2
        subst h3
        exact hkeep _ rfl rfl
      · rename_i hdup
        split at hres
        · rename_i share idx hfind0
          injection hres with h1 h2 h3
          subst h2
          subst h3
          have hfind : findShareSession st (defaultFill info req.model_session)
              (env.getPrefixShareModels
                (ModelSessionToModelID (defaultFill info req.model_session))) =
              some (share, idx) := by
            rcases hpb : env.enable_prefix_batch with _ | _
            · rw [hpb] at hfind0
              simp at hfind0
            · rw [hpb] at hfind0
              simpa using hfind0
          have hshare := findShareSession_some st _ _ share idx hfind
          refine ⟨?_, ?_⟩
          · exact TInv_attachCore st.session_table st.sessions tr
              (defaultFill info req.model_session) share idx hshare hdup h
          · apply sharedPrefixFrom_attach
            intro p hp
            cases hgs : st.sessions[idx]? with
            | none =>
              rw [hgs] at hp
              exact absurd hp (by simp)
            | some g =>
              rw [hgs] at hp
              simp only [Option.map_some', Option.getD_some] at hp
              have hpg : p ∈ (groupAt st.sessions idx).backend_throughputs := by
                rw [groupAt_some st.sessions idx g hgs]
                exact hp
              exact h.installed share idx hshare p hpg share (h.memKey share idx hshare)
        · rename_i hnoshare
          split at hres
          · exact LoadModelResult.noConfusion hres
          · injection hres with h1 h2 h3
            subst h2
            subst h3
            exact hkeep st rfl rfl
          · rename_i assigns halloc
            injection hres with h1 h2 h3
            subst h2
            subst h3
            refine ⟨?_, ?_⟩
            · exact TInv_freshCore st.session_table st.sessions tr
                (defaultFill info req.model_session) assigns hdup h
            · apply sharedPrefixFrom_no_prefix_instrs
              intro i hi
              simp only [List.mem_map] at hi
              obtain ⟨q, _, hqi⟩ := hi
              rw [← hqi]
              rfl

theorem shrinkUnload_no_prefix_instrs (k : ModelSession) (bid : Nat) (st : SchedState) :
    ∀ i ∈ (shrinkUnloadFn k bid st).2, isLoadPrefix i = false := by
  intro i hi
  unfold shrinkUnloadFn at hi
  split at hi
  · exact absurd hi (by simp)
  · split at hi
    · simp only [List.mem_singleton] at hi
      subst hi
      rfl
    · exact absurd hi (by simp)

theorem SharedPrefixPre_append (tr is : List Instr) (h1 : SharedPrefixPre tr)
    (h2 : sharedPrefixFrom tr is = true) : SharedPrefixPre (tr ++ is) := by
  show sharedPrefixFrom [] (tr ++ is) = true
  rw [sharedPrefixFrom_append, List.nil_append]
  rw [show sharedPrefixFrom [] tr = true from h1, h2]
  rfl

/-- Induction over reachability: every reachable state satisfies the
scheduler invariant, and its trace satisfies the shared-prefix
discipline. -/
theorem C4_reach_shared (env : Env) (st : SchedState) (tr : List Instr)
    (hr : Reach env st tr) : SInv st tr ∧ SharedPrefixPre tr := by
  induction hr with
  | init =>
    constructor
    · refine ⟨?_, ?_, ?_⟩ <;> intro k idx hk <;> simp [lookupA] at hk
    · rfl
  | step hprev hstep ih =>
    clear hprev
    revert ih
    cases hstep with
    | registerFrontend fid st tr =>
      exact fun ih => ⟨SInv_registerFrontend fid _ _ ih.1, ih.2⟩
    | registerBackend nid st tr =>
      exact fun ih => ⟨SInv_registerBackend nid _ _ ih.1, ih.2⟩
    | loadModel fuel req st tr r st2 is hh =>
      exact fun ih =>
        have h12 := SInv_loadModel _ fuel req _ _ r _ is hh ih.1
        ⟨h12.1, SharedPrefixPre_append _ _ ih.2 h12.2⟩
    | allocate fuel st tr =>
      exact fun ih =>
        have h12 := SInv_allocateUnassigned _ fuel _ _ ih.1
        ⟨h12.1, SharedPrefixPre_append _ _ ih.2 h12.2⟩
    | removeFrontend fid st tr =>
      exact fun ih =>
        have h12 := SInv_removeFrontend fid _ _ ih.1
        ⟨h12.1, SharedPrefixPre_append _ _ ih.2 h12.2⟩
    | shrinkUnload k bid st tr =>
      exact fun ih =>
        ⟨SInv_shrinkUnload k bid _ _ ih.1,
         SharedPrefixPre_append _ _ ih.2
           (sharedPrefixFrom_no_prefix_instrs _ _ (shrinkUnload_no_prefix_instrs k bid _))⟩

/-! ## Claim C4: concrete run exercising the prefix-attach scan -/

/-- State reached by a LoadModel call that produced a reply (the state is
unchanged when the handler diverges, which does not occur in the runs
below). -/
def lmStep (env : Env) (fuel : Nat) (req : LoadModelRequest) (st : SchedState) :
    SchedState :=
  match loadModelHandler env fuel req st with
  | .reply _ s _ => s
  | .diverged => st

def lmInstrs (env : Env) (fuel : Nat) (req : LoadModelRequest) (st : SchedState) :
    List Instr :=
  match loadModelHandler env fuel req st with
  | .reply _ _ is => is
  | .diverged => []

def lmReply (env : Env) (fuel : Nat) (req : LoadModelRequest) (st : SchedState) :
    LoadModelReply :=
  match loadModelHandler env fuel req st with
  | .reply r _ _ => r
  | .diverged => ⟨CtrlStatus.MODEL_NOT_FOUND, []⟩

theorem lm_step_of_reply (env : Env) (fuel : Nat) (req : LoadModelRequest)
    (st : SchedState) (tr : List Instr)
    (h : loadModelHandler env fuel req st =
      LoadModelResult.reply (lmReply env fuel req st) (lmStep env fuel req st)
        (lmInstrs env fuel req st)) :
    Step env st tr (lmStep env fuel req st) (tr ++ lmInstrs env fuel req st) :=
  Step.loadModel fuel req st tr _ _ _ h

def sessA4 : ModelSession := ⟨"f", "a", 1, 100, 0, 0⟩

def sessB4 : ModelSession := ⟨"f", "b", 1, 100, 0, 0⟩

def sessC4 : ModelSession := ⟨"f", "c", 1, 100, 0, 0⟩

/-- Model database for the run: three models of one framework; model b
prefix-shares with a, and model c with b (first) and a, as
GetPrefixShareModels may order them. -/
def env4 : Env :=
  { getModelInfo := fun _ => some ⟨false, 0, 0⟩
    getPrefixShareModels := fun id =>
      if id = ⟨"f", "b", 1⟩ then [⟨"f", "a", 1⟩]
      else if id = ⟨"f", "c", 1⟩ then [⟨"f", "b", 1⟩, ⟨"f", "a", 1⟩]
      else []
    prepare := fun _ _ _ => some (⟨5⟩, 1)
    enable_prefix_batch := true }

def reqA4 : LoadModelRequest := ⟨9, sessA4, 0⟩

def reqB4 : LoadModelRequest := ⟨9, sessB4, 0⟩

def reqC4 : LoadModelRequest := ⟨9, sessC4, 0⟩

def st4_2 : SchedState := registerFrontendFn 9 (registerBackendFn 1 initState)

def st4_3 : SchedState := lmStep env4 1 reqA4 st4_2

def st4_4 : SchedState := lmStep env4 1 reqB4 st4_3

def st4_5 : SchedState := lmStep env4 1 reqC4 st4_4

def tr4_5 : List Instr :=
  (([] ++ lmInstrs env4 1 reqA4 st4_2) ++ lmInstrs env4 1 reqB4 st4_3) ++
    lmInstrs env4 1 reqC4 st4_4

/-- The run: register backend 1 and frontend 9, then LoadModel a, b, c in
turn.  b attaches to a's group; c's share scan (lines 176-185) hits b
first, so the instruction is LoadPrefixModel(c, b) although b itself was
only ever loaded as a prefix model. -/
theorem reach4 : Reach env4 st4_5 tr4_5 :=
  .step (.step (.step (.step (.step .init
    (.registerBackend 1 initState []))
    (.registerFrontend 9 (registerBackendFn 1 initState) []))
    (lm_step_of_reply env4 1 reqA4 st4_2 [] rfl))
    (lm_step_of_reply env4 1 reqB4 st4_3 _ rfl))
    (lm_step_of_reply env4 1 reqC4 st4_4 _ rfl)

/-- C4 (counterexample to the claim as stated): it is not true that every
reachable trace precedes each LoadPrefixModel(tail, head) by a
LoadModel(head) on that backend.  In the run of `reach4`, the share scan
of LoadModel(c) (scheduler.cpp lines 176-185) finds sibling b - itself
only ever loaded by LoadPrefixModel(b, a) - and line 196 issues
LoadPrefixModel(c, b) on backend 1, which never received LoadModel(b). -/
theorem C4_counterexample :
    ¬ ∀ (env : Env) (st : SchedState) (tr : List Instr),
        Reach env st tr → StrictPrefixPre tr := by
  intro hall
  have h1 : strictPrefixFrom []
      [Instr.loadModel 1 sessA4, Instr.loadPrefixModel 1 sessB4 sessA4,
       Instr.loadPrefixModel 1 sessC4 sessB4] = true :=
    hall env4 st4_5 tr4_5 reach4
  exact absurd h1 (by decide)

/-- C4 (amended): in every reachable execution, every
LoadPrefixModel(tail, head) issued to a backend names a head that is
installed on that backend - placed there by a LoadModel(head) or by an
earlier LoadPrefixModel(head, _) - with no intervening UnloadModel(head);
this covers both the prefix-attach path of LoadModel and the
sibling-loading loop of AllocateUnassignedWorkloads. -/
theorem C4_shared_prefix_discipline (env : Env) (st : SchedState)
    (tr : List Instr) (hr : Reach env st tr) : SharedPrefixPre tr :=
  (C4_reach_shared env st tr hr).2

/-- Witness: the amended theorem applied to the concrete reachable run of
`reach4`, whose trace contains a LoadPrefixModel whose head was itself
prefix-loaded. -/
theorem C4_shared_prefix_discipline_witness : SharedPrefixPre tr4_5 :=
  C4_shared_prefix_discipline env4 st4_5 tr4_5 reach4

end Nexus
